import Mathlib

/-!
Impala `HashTable` (be/src/exec/hash-table.cc)

A shallow embedding of the row-matching hash table: the dual-mode hash and
equality functors, the null-admission policy of `Insert`, and `Scan`.

Conventions of the embedding.

* `ρ` is the type of valid (non-NULL) row references `TupleRow*`; a possibly
  NULL pointer is an `Option ρ`, with `none` the NULL sentinel.
* `ν` is the type of non-NULL values behind the `void*` returned by
  `Expr::GetValue`; a NULL result is `none`.
* `τ` is the `PrimitiveType` enumeration.
* `size_t` is 64 bits wide; arithmetic on it is on `Nat` modulo `2 ^ 64`.
* A computation whose behaviour is undefined in the source (dereferencing a
  NULL probe row, indexing a vector out of bounds), or that fails the
  assertion of `EqualsFn` on the expression types, returns `none`.
-/

namespace impala

/-! ## Collaborators declared outside hash-table.cc -/

/-- An `Expr*`: `GetValue(row)` gives the value or NULL, `type()` its type. -/
structure Expr (ρ ν τ : Type) where
  GetValue : ρ → Option ν
  type : τ

/-- The static functions `RawValue::Compare` and `RawValue::GetHashValue`
(runtime/raw-value.h), taken as parameters. -/
structure RawValue (ν τ : Type) where
  Compare : ν → ν → τ → Int
  GetHashValue : ν → τ → Nat

/-- Number of values of `size_t`. -/
def SIZE_T_MOD : Nat := 2 ^ 64

/-- The function `boost::hash_combine(seed, v)` for a `size_t` value `v`:
`seed ^= v + 0x9e3779b9 + (seed << 6) + (seed >> 2)`. -/
def hash_combine (seed v : Nat) : Nat :=
  (seed ^^^ ((v + 0x9e3779b9 + (seed <<< 6) + (seed >>> 2)) % SIZE_T_MOD)) % SIZE_T_MOD

/-- Modelled from the spec: the Row Multiset `HashSet` (the boost unordered
multiset type named in hash-table.h, which is missing). It is a multiset of row
references, parameterised by the hash and equality functors; `elems` lists the
entries in the container's enumeration order, `bucket_count` is the number of
buckets it was created with. -/
structure HashSet (ρ : Type) where
  bucket_count : Nat
  elems : List ρ

/-- Modelled from the spec: `HashSet::insert`. No uniqueness constraint, an
entry is added whatever is already stored. -/
def HashSet.insert {ρ : Type} (s : HashSet ρ) (r : ρ) : HashSet ρ :=
  { s with elems := r :: s.elems }

/-- Modelled from the spec: `HashSet::size`. -/
def HashSet.size {ρ : Type} (s : HashSet ρ) : Nat := s.elems.length

/-- Number of occurrences of a row reference among the stored entries. -/
def HashSet.count {ρ : Type} [DecidableEq ρ] (s : HashSet ρ) (r : ρ) : Nat :=
  s.elems.count r

/-- Walk of `equal_range` over the entries: an entry is in the range when it
lies in the bucket of the key's hash `hk` and the equality functor, called
with the key on the left and the entry on the right, holds. -/
def HashSet.equal_range.go {ρ : Type} (hash : Option ρ → Option Nat)
    (eq : Option ρ → ρ → Option Bool) (n : Nat) (k : Option ρ) (hk : Nat) :
    List ρ → Option (List ρ)
  | [] => some []
  | e :: es =>
    match hash (some e) with
    | none => none
    | some he =>
      if he % n = hk % n then
        match eq k e, HashSet.equal_range.go hash eq n k hk es with
        | some b, some rest => some (if b then e :: rest else rest)
        | _, _ => none
      else HashSet.equal_range.go hash eq n k hk es

/-- Modelled from the spec: `HashSet::equal_range(k)`, the range of entries
that the hash and equality functors consider equal to the key `k`. -/
def HashSet.equal_range {ρ : Type} (hash : Option ρ → Option Nat)
    (eq : Option ρ → ρ → Option Bool) (s : HashSet ρ) (k : Option ρ) :
    Option (List ρ) :=
  match hash k with
  | none => none
  | some hk => HashSet.equal_range.go hash eq s.bucket_count k hk s.elems

/-- Modelled from the spec: `HashTable::Iterator` (declared in hash-table.h,
which is missing), a forward cursor over a bound range; `range` holds the rows
from the current position to the end of the range. -/
structure Iterator (ρ : Type) where
  range : List ρ

/-- Modelled from the spec: `Iterator::Reset` rebinds the cursor to a new
range, discarding the prior position. -/
def Iterator.Reset {ρ : Type} (_it : Iterator ρ) (range : List ρ) : Iterator ρ :=
  { range := range }

/-- Modelled from the spec: `Iterator::GetNext` returns the next row of the
range and advances, or the NULL sentinel once the range is exhausted. -/
def Iterator.GetNext {ρ : Type} (it : Iterator ρ) : Option ρ × Iterator ρ :=
  match it.range with
  | [] => (none, it)
  | r :: rest => (some r, { range := rest })

/-- The rows an iterator yields: the loop
`while ((r = i.GetNext()) != NULL)` of `HashTable::DebugString`, run for at
most `fuel` rows. -/
def Iterator.collect {ρ : Type} : Nat → Iterator ρ → List ρ
  | 0, _ => []
  | fuel + 1, it =>
    match it.GetNext with
    | (none, _) => []
    | (some r, it') => r :: Iterator.collect fuel it'

/-- The iterator after `n` calls of `GetNext`. -/
def Iterator.advance {ρ : Type} : Nat → Iterator ρ → Iterator ρ
  | 0, it => it
  | n + 1, it => Iterator.advance n it.GetNext.2

/-! ## The table -/

/-- The members of `HashTable` (the row descriptor, used only for printing,
is left out). -/
structure HashTable (ρ ν τ : Type) where
  hash_tbl_ : HashSet ρ
  build_exprs_ : List (Expr ρ ν τ)
  probe_exprs_ : List (Expr ρ ν τ)
  current_probe_row_ : Option ρ
  stores_nulls_ : Bool

/-- The constructor `HashTable::HashTable`: 1031 buckets, no entry, no
current probe row. -/
def HashTable.new {ρ ν τ : Type} (build_exprs probe_exprs : List (Expr ρ ν τ))
    (stores_nulls : Bool) : HashTable ρ ν τ :=
  { hash_tbl_ := { bucket_count := 1031, elems := [] }
    build_exprs_ := build_exprs
    probe_exprs_ := probe_exprs
    current_probe_row_ := none
    stores_nulls_ := stores_nulls }

/-- The choice of expression list and row that opens both functors: for the
NULL sentinel the probe expressions and the current probe row (NULL there is
undefined), for a row the build expressions and that row. -/
def HashTable.select {ρ ν τ : Type} (t : HashTable ρ ν τ) (r : Option ρ) :
    Option (List (Expr ρ ν τ) × ρ) :=
  match r with
  | none =>
    match t.current_probe_row_ with
    | none => none
    | some row => some (t.probe_exprs_, row)
  | some r => some (t.build_exprs_, r)

/-- The per-column contribution in `HashFn`:
`value == NULL ? 0 : RawValue::GetHashValue(value, expr->type())`. -/
def HashFn.hash_value {ρ ν τ : Type} (rv : RawValue ν τ) (row : ρ)
    (expr : Expr ρ ν τ) : Nat :=
  match expr.GetValue row with
  | none => 0
  | some value => rv.GetHashValue value expr.type

/-- The functor `HashTable::HashFn::operator()`. -/
def HashFn {ρ ν τ : Type} (rv : RawValue ν τ) (t : HashTable ρ ν τ)
    (r : Option ρ) : Option Nat :=
  match t.select r with
  | none => none
  | some (exprs, row) =>
    some (exprs.foldl (fun seed expr => hash_combine seed (HashFn.hash_value rv row expr)) 0)

/-- The loop of `EqualsFn` from column `i`, with `remaining` columns of the
build list still to visit. At each column the assertion
`DCHECK_EQ((*r1_exprs)[i]->type(), hash_tbl_->build_exprs_[i]->type())` comes
before the test for nulls; where it fails the result is `none`. -/
def EqualsFn.loop {ρ ν τ : Type} [DecidableEq τ] (rv : RawValue ν τ) (stores_nulls : Bool)
    (r1_exprs build_exprs : List (Expr ρ ν τ)) (r1_row r2 : ρ) :
    Nat → Nat → Option Bool
  | 0, _ => some true
  | remaining + 1, i =>
    match r1_exprs[i]?, build_exprs[i]? with
    | some e1, some e2 =>
      if e1.type ≠ e2.type then none
      else
        match e1.GetValue r1_row, e2.GetValue r2 with
        | some value1, some value2 =>
          if rv.Compare value1 value2 e1.type ≠ 0 then some false
          else EqualsFn.loop rv stores_nulls r1_exprs build_exprs r1_row r2 remaining (i + 1)
        | value1, value2 =>
          if !stores_nulls || value1.isSome || value2.isSome then some false
          else EqualsFn.loop rv stores_nulls r1_exprs build_exprs r1_row r2 remaining (i + 1)
    | _, _ => none

/-- The functor `HashTable::EqualsFn::operator()`; `r2` is a resident row
and never NULL. -/
def EqualsFn {ρ ν τ : Type} [DecidableEq τ] (rv : RawValue ν τ) (t : HashTable ρ ν τ)
    (r1 : Option ρ) (r2 : ρ) : Option Bool :=
  match t.select r1 with
  | none => none
  | some (r1_exprs, r1_row) =>
    EqualsFn.loop rv t.stores_nulls_ r1_exprs t.build_exprs_ r1_row r2
      t.build_exprs_.length 0

/-- The check for nulls in `Insert`: some build expression is NULL on `r`. -/
def Insert.has_null {ρ ν τ : Type} (t : HashTable ρ ν τ) (r : ρ) : Bool :=
  t.build_exprs_.any (fun e => (e.GetValue r).isNone)

/-- The method `HashTable::Insert`. -/
def Insert {ρ ν τ : Type} (t : HashTable ρ ν τ) (r : ρ) : HashTable ρ ν τ :=
  if !t.stores_nulls_ && Insert.has_null t r then t
  else { t with hash_tbl_ := t.hash_tbl_.insert r }

/-- The method `HashTable::Scan`: the table with the new current probe row
and the iterator bound to the range. -/
def Scan {ρ ν τ : Type} [DecidableEq τ] (rv : RawValue ν τ) (t : HashTable ρ ν τ)
    (probe_row : Option ρ) (it : Iterator ρ) : Option (HashTable ρ ν τ × Iterator ρ) :=
  let t' := { t with current_probe_row_ := probe_row }
  match probe_row with
  | some _ =>
    match t'.hash_tbl_.equal_range (HashFn rv t') (EqualsFn rv t') none with
    | none => none
    | some range => some (t', it.Reset range)
  | none => some (t', it.Reset t'.hash_tbl_.elems)

/-! ## Reference definitions -/

/-- The per-column rule of the equality functor as the specification words
it: two non-null values are equal iff `Compare` gives zero, two nulls are
equal iff nulls are stored, a null and a non-null value are never equal. -/
def column_equal {ν τ : Type} (rv : RawValue ν τ) (stores_nulls : Bool) (ty : τ) :
    Option ν → Option ν → Bool
  | some v1, some v2 => decide (rv.Compare v1 v2 ty = 0)
  | none, none => stores_nulls
  | _, _ => false

/-- The reference definition of key equality: the logical AND over the
column positions of the per-column rule, the left key given with its types. -/
def EqualsFn.reference {ν τ : Type} (rv : RawValue ν τ) (stores_nulls : Bool)
    (left : List (Option ν × τ)) (right : List (Option ν)) : Bool :=
  (List.zipWith (fun l v2 => column_equal rv stores_nulls l.2 l.1 v2) left right).all
    (fun b => b)

/-- The collaborator contract the container relies on: values that `Compare`
judges equal under a type have the same `GetHashValue` under that type. -/
def HashRespectsCompare {ν τ : Type} (rv : RawValue ν τ) : Prop :=
  ∀ v1 v2 ty, rv.Compare v1 v2 ty = 0 → rv.GetHashValue v1 ty = rv.GetHashValue v2 ty

/-- The construction invariant on the expression lists: build and probe lists
have the same length and, position by position, the same type. -/
def TypesAligned {ρ ν τ : Type} (t : HashTable ρ ν τ) : Prop :=
  t.probe_exprs_.map (fun e => e.type) = t.build_exprs_.map (fun e => e.type)

/-- The type half of the construction invariant on the positions two
expression lists share: the expressions at the same position have the same
type. -/
def TypesMatch {ρ ν τ : Type} (exprs1 exprs2 : List (Expr ρ ν τ)) : Prop :=
  ∀ (i : Nat) (e1 e2 : Expr ρ ν τ),
    exprs1[i]? = some e1 → exprs2[i]? = some e2 → e1.type = e2.type

/-- The admission check of `Insert`: the row reaches `hash_tbl_->insert`. -/
def Insert.admits {ρ ν τ : Type} (t : HashTable ρ ν τ) (r : ρ) : Bool :=
  t.stores_nulls_ || !Insert.has_null t r

/-- A call made on the table by its user. -/
inductive Call (ρ : Type) where
  | insert (r : ρ)
  | scan (probe_row : Option ρ)

/-- The table after one call (the iterator of a `Scan` is dropped); `none`
when the call is undefined. -/
def Call.apply {ρ ν τ : Type} [DecidableEq τ] (rv : RawValue ν τ) (t : HashTable ρ ν τ) :
    Call ρ → Option (HashTable ρ ν τ)
  | Call.insert r => some (Insert t r)
  | Call.scan probe_row =>
    match Scan rv t probe_row { range := [] } with
    | none => none
    | some (t', _) => some t'

/-- The table after a sequence of calls, first call first. -/
def run {ρ ν τ : Type} [DecidableEq τ] (rv : RawValue ν τ) (t : HashTable ρ ν τ) :
    List (Call ρ) → Option (HashTable ρ ν τ)
  | [] => some t
  | c :: cs =>
    match c.apply rv t with
    | none => none
    | some t' => run rv t' cs

/-- The rows handed to `Insert` in a sequence of calls that pass the
admission check of a table with the given build expressions and flag. -/
def admitted_rows {ρ ν τ : Type} (build_exprs : List (Expr ρ ν τ)) (stores_nulls : Bool) :
    List (Call ρ) → List ρ
  | [] => []
  | Call.insert r :: cs =>
    if stores_nulls || !build_exprs.any (fun e => (e.GetValue r).isNone) then
      r :: admitted_rows build_exprs stores_nulls cs
    else admitted_rows build_exprs stores_nulls cs
  | Call.scan _ :: cs => admitted_rows build_exprs stores_nulls cs

/-- The assertion in the loop of `HashFn`,
`DCHECK(hash_tbl_->stores_nulls_ || r == NULL || value != NULL)`, at every
column the loop visits (none when the probe row is missing). -/
def HashFn.DCHECK {ρ ν τ : Type} (t : HashTable ρ ν τ) (r : Option ρ) : Bool :=
  match t.select r with
  | none => true
  | some (exprs, row) =>
    exprs.all (fun expr => t.stores_nulls_ || r.isNone || (expr.GetValue row).isSome)

/-- A value brought into the range of `size_t`. -/
def size_t (n : Nat) : Nat := n % 2 ^ 64

/-- The combining step as the specification words it, every operation in
`size_t` arithmetic: `seed XOR (h + 0x9e3779b9 + (seed << 6) + (seed >> 2))`,
the left shift a multiplication by `2 ^ 6` and the right shift a division by
`2 ^ 2`. -/
def hash_combine_reference (seed h : Nat) : Nat :=
  Nat.xor seed (size_t (size_t (size_t (h + 0x9e3779b9) + size_t (seed * 2 ^ 6)) + seed / 2 ^ 2))

/-- The reference definition of the hash of a key, given as the list of its
column values with their types: the left fold from seed 0, in column order,
of the combining step over the contributions, 0 for a null column and the
type-aware hash of the value otherwise. -/
def HashFn.reference {ν τ : Type} (rv : RawValue ν τ) (key : List (Option ν × τ)) : Nat :=
  key.foldl (fun seed column =>
    hash_combine_reference seed
      (match column.1 with
       | none => 0
       | some value => size_t (rv.GetHashValue value column.2))) 0

/-! ## Concrete tables for the end-to-end scenarios -/

namespace Scenario

/-- The primitive types the scenarios use. -/
inductive PrimitiveType where
  | TYPE_INT
  | TYPE_STRING
deriving DecidableEq

/-- A non-null slot value: an integer or a string. -/
inductive Datum where
  | int (n : Int)
  | str (s : String)
deriving DecidableEq

/-- A tuple row: the address that identifies the reference, and its slots. -/
structure TupleRow where
  addr : Nat
  slots : List (Option Datum)
deriving DecidableEq

/-- The expression that reads slot `i` of a row. -/
def SlotRef (i : Nat) (ty : PrimitiveType) : Expr TupleRow Datum PrimitiveType :=
  { GetValue := fun row => row.slots.getD i none, type := ty }

/-- Modelled from the spec: `RawValue::Compare` (runtime/raw-value.h, which is
missing), the type-aware total-order comparator; integers are ordered before
strings. -/
def Compare : Datum → Datum → PrimitiveType → Int
  | Datum.int a, Datum.int b, _ => if a < b then -1 else if b < a then 1 else 0
  | Datum.str a, Datum.str b, _ => if a < b then -1 else if b < a then 1 else 0
  | Datum.int _, Datum.str _, _ => -1
  | Datum.str _, Datum.int _, _ => 1

/-- Modelled from the spec: `RawValue::GetHashValue` (runtime/raw-value.h,
which is missing), a deterministic hash of the value in `size_t`. -/
def GetHashValue : Datum → PrimitiveType → Nat
  | Datum.int a, _ => (a % 2 ^ 64).toNat
  | Datum.str s, _ => s.length

/-- The two collaborators together. -/
def raw_value : RawValue Datum PrimitiveType :=
  { Compare := Compare, GetHashValue := GetHashValue }

/-- An empty table keyed on column 0, an integer, on both sides. -/
def one_column (stores_nulls : Bool) : HashTable TupleRow Datum PrimitiveType :=
  HashTable.new [SlotRef 0 PrimitiveType.TYPE_INT] [SlotRef 0 PrimitiveType.TYPE_INT]
    stores_nulls

/-- An empty table keyed on columns 0 and 1, both integers, on both sides. -/
def two_column (stores_nulls : Bool) : HashTable TupleRow Datum PrimitiveType :=
  HashTable.new
    [SlotRef 0 PrimitiveType.TYPE_INT, SlotRef 1 PrimitiveType.TYPE_INT]
    [SlotRef 0 PrimitiveType.TYPE_INT, SlotRef 1 PrimitiveType.TYPE_INT]
    stores_nulls

/-- The build row `(1, "a")` at address 1. -/
def row_1a : TupleRow := { addr := 1, slots := [some (Datum.int 1), some (Datum.str "a")] }

/-- The build row `(2, "b")` at address 2. -/
def row_2b : TupleRow := { addr := 2, slots := [some (Datum.int 2), some (Datum.str "b")] }

/-- A second build row `(1, "a")`, at address 3. -/
def row_1a_again : TupleRow :=
  { addr := 3, slots := [some (Datum.int 1), some (Datum.str "a")] }

/-- The build row `(1, null)` at address 4. -/
def row_1n : TupleRow := { addr := 4, slots := [some (Datum.int 1), none] }

/-- The build row `(null, 2)` at address 5. -/
def row_n2 : TupleRow := { addr := 5, slots := [none, some (Datum.int 2)] }

/-- The build row `(null, 1)` at address 6. -/
def row_n1 : TupleRow := { addr := 6, slots := [none, some (Datum.int 1)] }

/-- A table built against the construction invariant: two build columns, one
probe column. -/
def short_probe (stores_nulls : Bool) : HashTable TupleRow Datum PrimitiveType :=
  HashTable.new
    [SlotRef 0 PrimitiveType.TYPE_INT, SlotRef 1 PrimitiveType.TYPE_INT]
    [SlotRef 0 PrimitiveType.TYPE_INT]
    stores_nulls

/-- A probe row with the one-column key `k`. -/
def probe_key (k : Int) : TupleRow := { addr := 100, slots := [some (Datum.int k)] }

/-- A probe row with the two-column key `(k0, k1)`. -/
def probe_key2 (k0 k1 : Option Int) : TupleRow :=
  { addr := 101, slots := [k0.map Datum.int, k1.map Datum.int] }

/-- The one-column table after inserting `(1, "a")`, `(2, "b")`, `(1, "a")`. -/
def built_1a_2b_1a : HashTable TupleRow Datum PrimitiveType :=
  Insert (Insert (Insert (one_column false) row_1a) row_2b) row_1a_again

/-- The two-column table storing nulls after inserting `(1, null)`, `(null, 2)`. -/
def built_1n_n2 : HashTable TupleRow Datum PrimitiveType :=
  Insert (Insert (two_column true) row_1n) row_n2

end Scenario

/-! ## Helper lemmas -/

theorem TypesMatch.refl {ρ ν τ : Type} (exprs : List (Expr ρ ν τ)) : TypesMatch exprs exprs := by
  intro i e1 e2 h1 h2
  rw [h1] at h2
  simp only [Option.some.injEq] at h2
  rw [h2]

theorem TypesAligned.types_match {ρ ν τ : Type} {t : HashTable ρ ν τ} (h : TypesAligned t) :
    TypesMatch t.probe_exprs_ t.build_exprs_ := by
  intro i e1 e2 h1 h2
  have hte : (t.probe_exprs_.map (fun e => e.type))[i]? =
      (t.build_exprs_.map (fun e => e.type))[i]? := by rw [h]
  simp only [List.getElem?_map, h1, h2, Option.map_some', Option.some.injEq] at hte
  exact hte

theorem EqualsFn.loop_succ {ρ ν τ : Type} [DecidableEq τ] (rv : RawValue ν τ) (sn : Bool)
    (r1_exprs build_exprs : List (Expr ρ ν τ)) (r1_row r2 : ρ) (n i : Nat)
    (e1 e2 : Expr ρ ν τ) (h1 : r1_exprs[i]? = some e1) (h2 : build_exprs[i]? = some e2)
    (hty : e1.type = e2.type) :
    EqualsFn.loop rv sn r1_exprs build_exprs r1_row r2 (n + 1) i =
      if column_equal rv sn e1.type (e1.GetValue r1_row) (e2.GetValue r2) then
        EqualsFn.loop rv sn r1_exprs build_exprs r1_row r2 n (i + 1)
      else some false := by
  rw [EqualsFn.loop, h1, h2]
  cases hv1 : e1.GetValue r1_row <;> cases hv2 : e2.GetValue r2 <;> cases sn <;>
    simp [column_equal, hv1, hv2, hty]

theorem EqualsFn.loop_type_mismatch {ρ ν τ : Type} [DecidableEq τ] (rv : RawValue ν τ)
    (sn : Bool) (r1_exprs build_exprs : List (Expr ρ ν τ)) (r1_row r2 : ρ) (n i : Nat)
    (e1 e2 : Expr ρ ν τ) (h1 : r1_exprs[i]? = some e1) (h2 : build_exprs[i]? = some e2)
    (hty : e1.type ≠ e2.type) :
    EqualsFn.loop rv sn r1_exprs build_exprs r1_row r2 (n + 1) i = none := by
  rw [EqualsFn.loop, h1, h2]
  simp [hty]

theorem EqualsFn.loop_oob {ρ ν τ : Type} [DecidableEq τ] (rv : RawValue ν τ) (sn : Bool)
    (r1_exprs build_exprs : List (Expr ρ ν τ)) (r1_row r2 : ρ) (n i : Nat)
    (h : r1_exprs[i]? = none ∨ build_exprs[i]? = none) :
    EqualsFn.loop rv sn r1_exprs build_exprs r1_row r2 (n + 1) i = none := by
  rw [EqualsFn.loop]
  rcases h with h | h
  · rw [h]
  · rw [h]; cases r1_exprs[i]? <;> rfl

theorem EqualsFn.loop_false_of_column {ρ ν τ : Type} [DecidableEq τ] (rv : RawValue ν τ)
    (sn : Bool) (r1_exprs build_exprs : List (Expr ρ ν τ)) (r1_row r2 : ρ) (j : Nat)
    (e1 e2 : Expr ρ ν τ)
    (htypes : ∀ (k : Nat) (a b : Expr ρ ν τ), k ≤ j → r1_exprs[k]? = some a →
      build_exprs[k]? = some b → a.type = b.type)
    (h1 : r1_exprs[j]? = some e1) (h2 : build_exprs[j]? = some e2)
    (hc : column_equal rv sn e1.type (e1.GetValue r1_row) (e2.GetValue r2) = false) :
    ∀ n i, i ≤ j → j < i + n →
      EqualsFn.loop rv sn r1_exprs build_exprs r1_row r2 n i = some false := by
  intro n
  induction n with
  | zero => intro i h h'; omega
  | succ n ih =>
    intro i hij hjn
    rcases Nat.eq_or_lt_of_le hij with heq | hlt
    · subst heq
      rw [EqualsFn.loop_succ rv sn r1_exprs build_exprs r1_row r2 n i e1 e2 h1 h2
        (htypes i e1 e2 (le_refl i) h1 h2), hc]
      rfl
    · obtain ⟨hj1, -⟩ := List.getElem?_eq_some.mp h1
      obtain ⟨hj2, -⟩ := List.getElem?_eq_some.mp h2
      have hi1 : i < r1_exprs.length := by omega
      have hi2 : i < build_exprs.length := by omega
      rw [EqualsFn.loop_succ rv sn r1_exprs build_exprs r1_row r2 n i _ _
        (List.getElem?_eq_getElem hi1) (List.getElem?_eq_getElem hi2)
        (htypes i _ _ hij (List.getElem?_eq_getElem hi1) (List.getElem?_eq_getElem hi2))]
      split
      · exact ih (i + 1) (by omega) (by omega)
      · rfl

theorem EqualsFn.loop_eq_true_iff {ρ ν τ : Type} [DecidableEq τ] (rv : RawValue ν τ)
    (sn : Bool) (r1_exprs build_exprs : List (Expr ρ ν τ)) (r1_row r2 : ρ) :
    ∀ n i, EqualsFn.loop rv sn r1_exprs build_exprs r1_row r2 n i = some true ↔
      ∀ j, i ≤ j → j < i + n → ∃ e1 e2, r1_exprs[j]? = some e1 ∧ build_exprs[j]? = some e2 ∧
        e1.type = e2.type ∧
        column_equal rv sn e1.type (e1.GetValue r1_row) (e2.GetValue r2) = true := by
  intro n
  induction n with
  | zero =>
    intro i
    constructor
    · intro _ j h h'; omega
    · intro _; rfl
  | succ n ih =>
    intro i
    cases h1 : r1_exprs[i]? with
    | none =>
      rw [EqualsFn.loop_oob rv sn r1_exprs build_exprs r1_row r2 n i (Or.inl h1)]
      constructor
      · intro h; cases h
      · intro h
        obtain ⟨e1, e2, h1', -, -⟩ := h i (le_refl i) (by omega)
        rw [h1] at h1'; cases h1'
    | some e1 =>
      cases h2 : build_exprs[i]? with
      | none =>
        rw [EqualsFn.loop_oob rv sn r1_exprs build_exprs r1_row r2 n i (Or.inr h2)]
        constructor
        · intro h; cases h
        · intro h
          obtain ⟨e1, e2, -, h2', -⟩ := h i (le_refl i) (by omega)
          rw [h2] at h2'; cases h2'
      | some e2 =>
        by_cases hty : e1.type = e2.type
        · rw [EqualsFn.loop_succ rv sn r1_exprs build_exprs r1_row r2 n i e1 e2 h1 h2 hty]
          cases hc : column_equal rv sn e1.type (e1.GetValue r1_row) (e2.GetValue r2) with
          | false =>
            constructor
            · intro h; simp at h
            · intro h
              obtain ⟨e1', e2', h1', h2', -, hc'⟩ := h i (le_refl i) (by omega)
              rw [h1] at h1'; rw [h2] at h2'
              cases h1'; cases h2'
              rw [hc] at hc'; cases hc'
          | true =>
            simp only [if_true]
            rw [ih (i + 1)]
            constructor
            · intro h j hij hjn
              rcases Nat.eq_or_lt_of_le hij with heq | hlt
              · subst heq; exact ⟨e1, e2, h1, h2, hty, hc⟩
              · exact h j (by omega) (by omega)
            · intro h j hij hjn
              exact h j (by omega) (by omega)
        · rw [EqualsFn.loop_type_mismatch rv sn r1_exprs build_exprs r1_row r2 n i e1 e2 h1 h2
            hty]
          constructor
          · intro h; cases h
          · intro h
            obtain ⟨e1', e2', h1', h2', hty', -⟩ := h i (le_refl i) (by omega)
            rw [h1] at h1'; rw [h2] at h2'
            cases h1'; cases h2'
            exact absurd hty' hty

theorem EqualsFn.loop_eq_reference {ρ ν τ : Type} [DecidableEq τ] (rv : RawValue ν τ)
    (sn : Bool) (r1_exprs build_exprs : List (Expr ρ ν τ)) (r1_row r2 : ρ)
    (hlen : build_exprs.length ≤ r1_exprs.length) (htypes : TypesMatch r1_exprs build_exprs) :
    ∀ n i, i + n = build_exprs.length →
      EqualsFn.loop rv sn r1_exprs build_exprs r1_row r2 n i =
        some (EqualsFn.reference rv sn
          ((r1_exprs.drop i).map (fun e => (e.GetValue r1_row, e.type)))
          ((build_exprs.drop i).map (fun e => e.GetValue r2))) := by
  intro n
  induction n with
  | zero =>
    intro i hi
    have : build_exprs.drop i = [] := List.drop_eq_nil_of_le (by omega)
    simp [EqualsFn.loop, EqualsFn.reference, this]
  | succ n ih =>
    intro i hi
    have hi2 : i < build_exprs.length := by omega
    have hi1 : i < r1_exprs.length := by omega
    rw [EqualsFn.loop_succ rv sn r1_exprs build_exprs r1_row r2 n i _ _
      (List.getElem?_eq_getElem hi1) (List.getElem?_eq_getElem hi2)
      (htypes i _ _ (List.getElem?_eq_getElem hi1) (List.getElem?_eq_getElem hi2)),
      ih (i + 1) (by omega),
      List.drop_eq_getElem_cons hi1, List.drop_eq_getElem_cons hi2]
    simp only [EqualsFn.reference, List.map_cons, List.zipWith_cons_cons, List.all_cons]
    cases column_equal rv sn r1_exprs[i].type (r1_exprs[i].GetValue r1_row)
      (build_exprs[i].GetValue r2) <;> simp

/-! ### The container and the iterator -/

theorem HashSet.equal_range.go_eq_filter {ρ : Type} (hash : Option ρ → Option Nat)
    (eq : Option ρ → ρ → Option Bool) (n : Nat) (k : Option ρ) (hk : Nat) :
    ∀ es : List ρ,
      (∀ e ∈ es, ∃ he, hash (some e) = some he ∧ (eq k e = some true → he % n = hk % n)) →
      (∀ e ∈ es, ∃ b, eq k e = some b) →
      HashSet.equal_range.go hash eq n k hk es =
        some (es.filter (fun e => decide (eq k e = some true))) := by
  intro es
  induction es with
  | nil => intro _ _; rfl
  | cons e es ih =>
    intro hh hb
    obtain ⟨he, hhash, himp⟩ := hh e (List.mem_cons_self e es)
    obtain ⟨b, hbe⟩ := hb e (List.mem_cons_self e es)
    have ih' := ih (fun x hx => hh x (List.mem_cons_of_mem e hx))
      (fun x hx => hb x (List.mem_cons_of_mem e hx))
    rw [HashSet.equal_range.go, hhash]
    simp only [ih', hbe]
    by_cases hbk : he % n = hk % n
    · rw [if_pos hbk]
      cases b <;> simp [List.filter_cons, hbe]
    · rw [if_neg hbk]
      have : eq k e ≠ some true := fun h => hbk (himp h)
      simp [List.filter_cons, this]

theorem HashSet.equal_range.go_mem {ρ : Type} (hash : Option ρ → Option Nat)
    (eq : Option ρ → ρ → Option Bool) (n : Nat) (k : Option ρ) (hk : Nat) :
    ∀ (es l : List ρ), HashSet.equal_range.go hash eq n k hk es = some l →
      ∀ x ∈ l, x ∈ es ∧ eq k x = some true := by
  intro es
  induction es with
  | nil =>
    intro l h x hx
    simp [HashSet.equal_range.go] at h
    subst h
    cases hx
  | cons e es ih =>
    intro l h x hx
    rw [HashSet.equal_range.go] at h
    cases hhash : hash (some e) with
    | none => rw [hhash] at h; cases h
    | some he =>
      rw [hhash] at h
      simp only at h
      by_cases hbk : he % n = hk % n
      · rw [if_pos hbk] at h
        cases hb : eq k e with
        | none => rw [hb] at h; cases h
        | some b =>
          cases hgo : HashSet.equal_range.go hash eq n k hk es with
          | none => rw [hb, hgo] at h; cases h
          | some rest =>
            rw [hb, hgo] at h
            simp only [Option.some.injEq] at h
            subst h
            cases b with
            | false =>
              obtain ⟨h1, h2⟩ := ih rest hgo x (by simpa using hx)
              exact ⟨List.mem_cons_of_mem e h1, h2⟩
            | true =>
              simp only [if_true, List.mem_cons] at hx
              rcases hx with hx | hx
              · subst hx; exact ⟨List.mem_cons_self _ _, hb⟩
              · obtain ⟨h1, h2⟩ := ih rest hgo x hx
                exact ⟨List.mem_cons_of_mem e h1, h2⟩
      · rw [if_neg hbk] at h
        obtain ⟨h1, h2⟩ := ih l h x hx
        exact ⟨List.mem_cons_of_mem e h1, h2⟩

theorem Iterator.collect_eq_take {ρ : Type} :
    ∀ (fuel : Nat) (l : List ρ), Iterator.collect fuel { range := l } = l.take fuel := by
  intro fuel
  induction fuel with
  | zero => intro l; simp [Iterator.collect]
  | succ n ih =>
    intro l
    cases l with
    | nil => simp [Iterator.collect, Iterator.GetNext]
    | cons r rest => simp [Iterator.collect, Iterator.GetNext, ih]

theorem Iterator.collect_of_le {ρ : Type} (fuel : Nat) (l : List ρ)
    (h : l.length ≤ fuel) : Iterator.collect fuel { range := l } = l := by
  rw [Iterator.collect_eq_take, List.take_of_length_le h]

/-! ### Hash and equality agree, and what `Scan` binds -/

theorem TypesAligned.length_eq {ρ ν τ : Type} {t : HashTable ρ ν τ} (h : TypesAligned t) :
    t.probe_exprs_.length = t.build_exprs_.length := by
  have := congrArg List.length h
  simpa using this

theorem HashTable.select_types {ρ ν τ : Type} (t : HashTable ρ ν τ) (h : TypesAligned t)
    (r : Option ρ) (exprs : List (Expr ρ ν τ)) (row : ρ)
    (hsel : t.select r = some (exprs, row)) :
    exprs.map (fun e => e.type) = t.build_exprs_.map (fun e => e.type) := by
  cases r with
  | none =>
    cases hp : t.current_probe_row_ with
    | none => simp [HashTable.select, hp] at hsel
    | some p =>
      simp only [HashTable.select, hp, Option.some.injEq, Prod.mk.injEq] at hsel
      rw [← hsel.1]; exact h
  | some r =>
    simp only [HashTable.select, Option.some.injEq, Prod.mk.injEq] at hsel
    rw [← hsel.1]

theorem HashFn.hash_value_eq_of_column_equal {ρ ν τ : Type} (rv : RawValue ν τ)
    (hrc : HashRespectsCompare rv) (sn : Bool) (e1 e2 : Expr ρ ν τ) (row r2 : ρ)
    (hty : e1.type = e2.type)
    (hc : column_equal rv sn e1.type (e1.GetValue row) (e2.GetValue r2) = true) :
    HashFn.hash_value rv row e1 = HashFn.hash_value rv r2 e2 := by
  unfold HashFn.hash_value
  cases h1 : e1.GetValue row with
  | none =>
    cases h2 : e2.GetValue r2 with
    | none => rfl
    | some v2 => rw [h1, h2] at hc; simp [column_equal] at hc
  | some v1 =>
    cases h2 : e2.GetValue r2 with
    | none => rw [h1, h2] at hc; simp [column_equal] at hc
    | some v2 =>
      rw [h1, h2] at hc
      simp only [column_equal, decide_eq_true_eq] at hc
      simp only
      rw [← hty]
      exact hrc v1 v2 e1.type hc

theorem HashFn_eq_of_EqualsFn {ρ ν τ : Type} [DecidableEq τ] (rv : RawValue ν τ)
    (t : HashTable ρ ν τ)
    (hrc : HashRespectsCompare rv) (hty : TypesAligned t) (r1 : Option ρ) (r2 : ρ)
    (h : EqualsFn rv t r1 r2 = some true) : HashFn rv t r1 = HashFn rv t (some r2) := by
  unfold EqualsFn at h
  cases hsel : t.select r1 with
  | none => rw [hsel] at h; cases h
  | some sel =>
    obtain ⟨exprs, row⟩ := sel
    rw [hsel] at h
    simp only at h
    have htypes := HashTable.select_types t hty r1 exprs row hsel
    have hlen : exprs.length = t.build_exprs_.length := by
      have := congrArg List.length htypes
      simpa using this
    have hcols := (EqualsFn.loop_eq_true_iff rv t.stores_nulls_ exprs t.build_exprs_ row r2
      t.build_exprs_.length 0).mp h
    have hmap : exprs.map (HashFn.hash_value rv row) =
        t.build_exprs_.map (HashFn.hash_value rv r2) := by
      apply List.ext_getElem
      · simp [hlen]
      · intro j hj1 hj2
        have hjb : j < t.build_exprs_.length := by simpa using hj2
        have hje : j < exprs.length := by simpa using hj1
        obtain ⟨e1, e2, he1, he2, -, hc⟩ := hcols j (Nat.zero_le j) (by omega)
        rw [List.getElem?_eq_getElem hje] at he1
        rw [List.getElem?_eq_getElem hjb] at he2
        simp only [Option.some.injEq] at he1 he2
        have hte : (exprs.map (fun e => e.type))[j]? = (t.build_exprs_.map (fun e => e.type))[j]? := by
          rw [htypes]
        simp only [List.getElem?_map, List.getElem?_eq_getElem hje,
          List.getElem?_eq_getElem hjb, Option.map_some', Option.some.injEq] at hte
        simp only [List.getElem_map]
        rw [he1, he2]
        apply HashFn.hash_value_eq_of_column_equal rv hrc t.stores_nulls_ e1 e2 row r2 _ hc
        rw [← he1, ← he2]; exact hte
    have h1 : HashFn rv t r1 = some (exprs.foldl
        (fun seed expr => hash_combine seed (HashFn.hash_value rv row expr)) 0) := by
      unfold HashFn; rw [hsel]
    have h2 : HashFn rv t (some r2) = some (t.build_exprs_.foldl
        (fun seed expr => hash_combine seed (HashFn.hash_value rv r2 expr)) 0) := rfl
    rw [h1, h2, ← List.foldl_map (HashFn.hash_value rv row) hash_combine,
      ← List.foldl_map (HashFn.hash_value rv r2) hash_combine, hmap]

theorem EqualsFn_eq_reference {ρ ν τ : Type} [DecidableEq τ] (rv : RawValue ν τ)
    (t : HashTable ρ ν τ)
    (r1 : Option ρ) (r2 : ρ) (exprs : List (Expr ρ ν τ)) (row : ρ)
    (hsel : t.select r1 = some (exprs, row))
    (hlen : t.build_exprs_.length ≤ exprs.length) (htypes : TypesMatch exprs t.build_exprs_) :
    EqualsFn rv t r1 r2 = some (EqualsFn.reference rv t.stores_nulls_
      (exprs.map (fun e => (e.GetValue row, e.type)))
      (t.build_exprs_.map (fun e => e.GetValue r2))) := by
  unfold EqualsFn
  rw [hsel]
  simp only
  rw [EqualsFn.loop_eq_reference rv t.stores_nulls_ exprs t.build_exprs_ row r2 hlen htypes
    t.build_exprs_.length 0 (by omega)]
  simp

theorem Scan_targeted_of {ρ ν τ : Type} [DecidableEq τ] (rv : RawValue ν τ)
    (t : HashTable ρ ν τ) (p : ρ)
    (it : Iterator ρ) (hlen : t.build_exprs_.length ≤ t.probe_exprs_.length)
    (htypes : TypesMatch t.probe_exprs_ t.build_exprs_)
    (hh : ∀ e ∈ t.hash_tbl_.elems,
      EqualsFn rv { t with current_probe_row_ := some p } none e = some true →
      HashFn rv { t with current_probe_row_ := some p } none =
        HashFn rv { t with current_probe_row_ := some p } (some e)) :
    Scan rv t (some p) it = some ({ t with current_probe_row_ := some p },
      { range := t.hash_tbl_.elems.filter (fun r =>
          decide (EqualsFn rv { t with current_probe_row_ := some p } none r = some true)) }) := by
  have hsel : ({ t with current_probe_row_ := some p } : HashTable ρ ν τ).select none =
      some (t.probe_exprs_, p) := rfl
  have hgo := HashSet.equal_range.go_eq_filter (HashFn rv { t with current_probe_row_ := some p })
    (EqualsFn rv { t with current_probe_row_ := some p }) t.hash_tbl_.bucket_count none
    (t.probe_exprs_.foldl (fun seed expr => hash_combine seed (HashFn.hash_value rv p expr)) 0)
    t.hash_tbl_.elems
    (by
      intro e he
      refine ⟨_, rfl, ?_⟩
      intro heq
      have := hh e he heq
      simp only [HashFn, HashTable.select, Option.some.injEq] at this
      rw [this])
    (by
      intro e _
      exact ⟨_, EqualsFn_eq_reference rv _ none e t.probe_exprs_ p hsel hlen htypes⟩)
  simp only [Scan, HashSet.equal_range, HashFn, HashTable.select, Iterator.Reset]
  rw [hgo]

theorem Scan_targeted {ρ ν τ : Type} [DecidableEq τ] (rv : RawValue ν τ) (t : HashTable ρ ν τ)
    (p : ρ)
    (it : Iterator ρ) (hrc : HashRespectsCompare rv) (hty : TypesAligned t) :
    Scan rv t (some p) it = some ({ t with current_probe_row_ := some p },
      { range := t.hash_tbl_.elems.filter (fun r =>
          decide (EqualsFn rv { t with current_probe_row_ := some p } none r = some true)) }) := by
  have hty' : TypesAligned { t with current_probe_row_ := some p } := hty
  exact Scan_targeted_of rv t p it (le_of_eq hty.length_eq.symm) hty.types_match
    (fun e _ heq => HashFn_eq_of_EqualsFn rv _ hrc hty' none e heq)

theorem HashFn.foldl_congr {ρ ν τ : Type} (rv : RawValue ν τ) (row1 row2 : ρ) :
    ∀ (l1 l2 : List (Expr ρ ν τ)) (seed : Nat),
      l1.map (fun e => (e.GetValue row1, e.type)) = l2.map (fun e => (e.GetValue row2, e.type)) →
      l1.foldl (fun seed expr => hash_combine seed (HashFn.hash_value rv row1 expr)) seed =
        l2.foldl (fun seed expr => hash_combine seed (HashFn.hash_value rv row2 expr)) seed := by
  intro l1
  induction l1 with
  | nil =>
    intro l2 seed h
    cases l2 with
    | nil => simp only [List.foldl_nil]
    | cons e2 l2 => simp at h
  | cons e1 l1 ih =>
    intro l2 seed h
    cases l2 with
    | nil => simp at h
    | cons e2 l2 =>
      simp only [List.map_cons, List.cons.injEq, Prod.mk.injEq] at h
      obtain ⟨⟨hv, ht⟩, hrest⟩ := h
      have hhv : HashFn.hash_value rv row1 e1 = HashFn.hash_value rv row2 e2 := by
        unfold HashFn.hash_value
        rw [hv, ht]
      simp only [List.foldl_cons]
      rw [hhv]
      exact ih l2 _ hrest

theorem HashFn_eq_of_same_key {ρ ν τ : Type} (rv : RawValue ν τ) (t : HashTable ρ ν τ)
    (p r : ρ) (hp : t.current_probe_row_ = some p)
    (hkey : t.probe_exprs_.map (fun e => (e.GetValue p, e.type)) =
      t.build_exprs_.map (fun e => (e.GetValue r, e.type))) :
    HashFn rv t none = HashFn rv t (some r) := by
  simp only [HashFn, HashTable.select, hp, Option.some.injEq]
  exact HashFn.foldl_congr rv p r t.probe_exprs_ t.build_exprs_ 0 hkey

theorem EqualsFn_congr {ρ ν τ : Type} [DecidableEq τ] (rv : RawValue ν τ) (t1 t2 : HashTable ρ ν τ)
    (hb : t1.build_exprs_ = t2.build_exprs_) (hp : t1.probe_exprs_ = t2.probe_exprs_)
    (hc : t1.current_probe_row_ = t2.current_probe_row_)
    (hs : t1.stores_nulls_ = t2.stores_nulls_) (r1 : Option ρ) (r2 : ρ) :
    EqualsFn rv t1 r1 r2 = EqualsFn rv t2 r1 r2 := by
  simp only [EqualsFn, HashTable.select, hb, hp, hc, hs]

theorem Insert_fields {ρ ν τ : Type} (t : HashTable ρ ν τ) (r : ρ) :
    (Insert t r).build_exprs_ = t.build_exprs_ ∧ (Insert t r).probe_exprs_ = t.probe_exprs_ ∧
    (Insert t r).current_probe_row_ = t.current_probe_row_ ∧
    (Insert t r).stores_nulls_ = t.stores_nulls_ ∧
    (Insert t r).hash_tbl_.bucket_count = t.hash_tbl_.bucket_count := by
  unfold Insert
  split <;> exact ⟨rfl, rfl, rfl, rfl, rfl⟩

theorem Insert_elems {ρ ν τ : Type} (t : HashTable ρ ν τ) (r : ρ) :
    (Insert t r).hash_tbl_.elems =
      if Insert.admits t r then r :: t.hash_tbl_.elems else t.hash_tbl_.elems := by
  unfold Insert Insert.admits
  cases t.stores_nulls_ <;> cases Insert.has_null t r <;> rfl

theorem List.count_filter_decide {α : Type} [DecidableEq α] (P : α → Bool) (l : List α)
    (r : α) : (l.filter P).count r = if P r = true then l.count r else 0 := by
  by_cases h : P r = true
  · rw [if_pos h, List.count_filter h]
  · rw [if_neg h]
    apply List.count_eq_zero_of_not_mem
    intro hm
    exact h (List.mem_filter.mp hm).2

theorem Scenario.raw_value_respects : HashRespectsCompare Scenario.raw_value := by
  intro v1 v2 ty h
  cases v1 with
  | int a =>
    cases v2 with
    | int b =>
      simp only [Scenario.raw_value, Scenario.Compare] at h
      have hab : a = b := by
        by_contra hne
        rcases lt_or_gt_of_ne hne with h1 | h1
        · simp [h1] at h
        · have : ¬ a < b := not_lt.mpr (le_of_lt h1)
          simp [this, h1] at h
      rw [hab]
    | str b => simp [Scenario.raw_value, Scenario.Compare] at h
  | str a =>
    cases v2 with
    | int b => simp [Scenario.raw_value, Scenario.Compare] at h
    | str b =>
      simp only [Scenario.raw_value, Scenario.Compare] at h
      have hab : a = b := by
        by_contra hne
        rcases lt_or_gt_of_ne hne with h1 | h1
        · simp [h1] at h
        · have : ¬ a < b := not_lt.mpr (le_of_lt h1)
          simp [this, h1] at h
      rw [hab]

theorem Scenario.Compare_int (a b : Int) (ty : Scenario.PrimitiveType) :
    Scenario.raw_value.Compare (Scenario.Datum.int a) (Scenario.Datum.int b) ty = 0 ↔ a = b := by
  simp only [Scenario.raw_value, Scenario.Compare]
  constructor
  · intro h
    by_contra hne
    rcases lt_or_gt_of_ne hne with h1 | h1
    · simp [h1] at h
    · have : ¬ a < b := not_lt.mpr (le_of_lt h1)
      simp [this, h1] at h
  · intro h
    subst h
    simp

theorem Scenario.one_column_equals (rv : RawValue Scenario.Datum Scenario.PrimitiveType)
    (t : HashTable Scenario.TupleRow Scenario.Datum Scenario.PrimitiveType)
    (hb : t.build_exprs_ = [Scenario.SlotRef 0 Scenario.PrimitiveType.TYPE_INT])
    (hp : t.probe_exprs_ = [Scenario.SlotRef 0 Scenario.PrimitiveType.TYPE_INT])
    (p r : Scenario.TupleRow) (hc : t.current_probe_row_ = some p) :
    EqualsFn rv t none r = some (column_equal rv t.stores_nulls_ Scenario.PrimitiveType.TYPE_INT
      (p.slots.getD 0 none) (r.slots.getD 0 none)) := by
  have hsel : t.select none = some (t.probe_exprs_, p) := by simp [HashTable.select, hc]
  rw [EqualsFn_eq_reference rv t none r t.probe_exprs_ p hsel (by rw [hb, hp])
    (by rw [hb, hp]; exact TypesMatch.refl _), hb, hp]
  simp [EqualsFn.reference, Scenario.SlotRef]

theorem Scenario.one_column_hash (rv : RawValue Scenario.Datum Scenario.PrimitiveType)
    (t : HashTable Scenario.TupleRow Scenario.Datum Scenario.PrimitiveType)
    (hb : t.build_exprs_ = [Scenario.SlotRef 0 Scenario.PrimitiveType.TYPE_INT])
    (hp : t.probe_exprs_ = [Scenario.SlotRef 0 Scenario.PrimitiveType.TYPE_INT])
    (p r : Scenario.TupleRow) (hc : t.current_probe_row_ = some p)
    (hk : p.slots.getD 0 none = r.slots.getD 0 none) :
    HashFn rv t none = HashFn rv t (some r) := by
  apply HashFn_eq_of_same_key rv t p r hc
  rw [hb, hp]
  simp only [List.map_cons, List.map_nil, Scenario.SlotRef, hk]

theorem Scenario.one_column_scan (rv : RawValue Scenario.Datum Scenario.PrimitiveType)
    (hcmp : ∀ a b ty, rv.Compare (Scenario.Datum.int a) (Scenario.Datum.int b) ty = 0 ↔ a = b)
    (it : Iterator Scenario.TupleRow) :
    (∃ t' it', Scan rv Scenario.built_1a_2b_1a (some (Scenario.probe_key 1)) it = some (t', it') ∧
      ∀ fuel, 3 ≤ fuel →
        List.Perm (it'.collect fuel) [Scenario.row_1a, Scenario.row_1a_again]) ∧
    (∃ t' it', Scan rv Scenario.built_1a_2b_1a (some (Scenario.probe_key 3)) it = some (t', it') ∧
      ∀ fuel, it'.collect fuel = []) := by
  have heq : ∀ (k a : Int) (r : Scenario.TupleRow),
      r.slots.getD 0 none = some (Scenario.Datum.int a) →
      EqualsFn rv { Scenario.built_1a_2b_1a with current_probe_row_ := some (Scenario.probe_key k) }
        none r = some (decide (k = a)) := by
    intro k a r hr
    rw [Scenario.one_column_equals rv _ rfl rfl (Scenario.probe_key k) r rfl, hr]
    simp [column_equal, Scenario.probe_key, hcmp]
  have helems : Scenario.built_1a_2b_1a.hash_tbl_.elems =
      [Scenario.row_1a_again, Scenario.row_2b, Scenario.row_1a] := rfl
  have hscan : ∀ k : Int, (∀ e ∈ Scenario.built_1a_2b_1a.hash_tbl_.elems,
      EqualsFn rv { Scenario.built_1a_2b_1a with current_probe_row_ := some (Scenario.probe_key k) }
        none e = some true → (Scenario.probe_key k).slots.getD 0 none = e.slots.getD 0 none) →
      Scan rv Scenario.built_1a_2b_1a (some (Scenario.probe_key k)) it = some (_, _) :=
    fun k h => Scan_targeted_of rv Scenario.built_1a_2b_1a (Scenario.probe_key k) it (le_refl _)
      (TypesMatch.refl _)
      (fun e he hm => Scenario.one_column_hash rv _ rfl rfl (Scenario.probe_key k) e rfl (h e he hm))
  constructor
  · refine ⟨_, _, hscan 1 ?_, ?_⟩
    · intro e he hm
      rw [helems] at he
      simp only [List.mem_cons, List.mem_singleton, List.not_mem_nil, or_false] at he
      rcases he with he | he | he
      · subst he; rfl
      · subst he
        rw [heq 1 2 Scenario.row_2b rfl] at hm
        simp at hm
      · subst he; rfl
    · intro fuel hfuel
      rw [helems]
      simp only [List.filter_cons, heq 1 1 Scenario.row_1a_again rfl, heq 1 2 Scenario.row_2b rfl,
        heq 1 1 Scenario.row_1a rfl]
      simp only [List.filter_nil]
      rw [Iterator.collect_of_le fuel _ (by simpa using (by omega : 2 ≤ fuel))]
      simp
      exact List.Perm.swap _ _ _
  · refine ⟨_, _, hscan 3 ?_, ?_⟩
    · intro e he hm
      rw [helems] at he
      simp only [List.mem_cons, List.mem_singleton, List.not_mem_nil, or_false] at he
      rcases he with he | he | he
      · subst he; rw [heq 3 1 Scenario.row_1a_again rfl] at hm; simp at hm
      · subst he; rw [heq 3 2 Scenario.row_2b rfl] at hm; simp at hm
      · subst he; rw [heq 3 1 Scenario.row_1a rfl] at hm; simp at hm
    · intro fuel
      rw [helems]
      simp only [List.filter_cons, heq 3 1 Scenario.row_1a_again rfl, heq 3 2 Scenario.row_2b rfl,
        heq 3 1 Scenario.row_1a rfl]
      simp [Iterator.collect_eq_take]

theorem Scan_targeted_count {ρ ν τ : Type} [DecidableEq τ] [DecidableEq ρ] (rv : RawValue ν τ)
    (t : HashTable ρ ν τ) (p : ρ) (it : Iterator ρ) (hrc : HashRespectsCompare rv)
    (hty : TypesAligned t) :
    ∃ it', Scan rv t (some p) it = some ({ t with current_probe_row_ := some p }, it') ∧
      ∀ fuel, t.hash_tbl_.size ≤ fuel → ∀ r, (it'.collect fuel).count r =
        if EqualsFn rv { t with current_probe_row_ := some p } none r = some true
        then t.hash_tbl_.count r else 0 := by
  refine ⟨_, Scan_targeted rv t p it hrc hty, ?_⟩
  intro fuel hfuel r
  rw [Iterator.collect_of_le fuel _
    (le_trans (List.length_filter_le _ _) hfuel), List.count_filter_decide]
  simp only [decide_eq_true_eq, HashSet.count]

theorem EqualsFn.loop_right_congr {ρ ν τ : Type} [DecidableEq τ] (rv : RawValue ν τ) (sn : Bool)
    (r1_exprs build_exprs : List (Expr ρ ν τ)) (r1_row r2 r2' : ρ)
    (hkey : ∀ e ∈ build_exprs, e.GetValue r2 = e.GetValue r2') :
    ∀ n i, EqualsFn.loop rv sn r1_exprs build_exprs r1_row r2 n i =
      EqualsFn.loop rv sn r1_exprs build_exprs r1_row r2' n i := by
  intro n
  induction n with
  | zero => intro i; rfl
  | succ n ih =>
    intro i
    cases h1 : r1_exprs[i]? with
    | none => rw [EqualsFn.loop_oob _ _ _ _ _ _ _ _ (Or.inl h1),
        EqualsFn.loop_oob _ _ _ _ _ _ _ _ (Or.inl h1)]
    | some e1 =>
      cases h2 : build_exprs[i]? with
      | none => rw [EqualsFn.loop_oob _ _ _ _ _ _ _ _ (Or.inr h2),
          EqualsFn.loop_oob _ _ _ _ _ _ _ _ (Or.inr h2)]
      | some e2 =>
        by_cases hty : e1.type = e2.type
        · rw [EqualsFn.loop_succ _ _ _ _ _ _ _ _ e1 e2 h1 h2 hty,
            EqualsFn.loop_succ _ _ _ _ _ _ _ _ e1 e2 h1 h2 hty, ih (i + 1),
            hkey e2 (List.getElem?_mem h2)]
        · rw [EqualsFn.loop_type_mismatch _ _ _ _ _ _ _ _ e1 e2 h1 h2 hty,
            EqualsFn.loop_type_mismatch _ _ _ _ _ _ _ _ e1 e2 h1 h2 hty]

theorem EqualsFn_right_congr {ρ ν τ : Type} [DecidableEq τ] (rv : RawValue ν τ)
    (t : HashTable ρ ν τ)
    (k : Option ρ) (r2 r2' : ρ) (hkey : ∀ e ∈ t.build_exprs_, e.GetValue r2 = e.GetValue r2') :
    EqualsFn rv t k r2 = EqualsFn rv t k r2' := by
  unfold EqualsFn
  cases t.select k with
  | none => rfl
  | some sel =>
    exact EqualsFn.loop_right_congr rv t.stores_nulls_ sel.1 t.build_exprs_ sel.2 r2 r2' hkey _ _

theorem column_equal_none_right {ν τ : Type} (rv : RawValue ν τ) (ty : τ) (v : Option ν) :
    column_equal rv false ty v none = false := by
  cases v <;> rfl

theorem Insert.admits_of_equal {ρ ν τ : Type} [DecidableEq τ] (rv : RawValue ν τ)
    (t : HashTable ρ ν τ)
    (k : Option ρ) (r : ρ) (h : EqualsFn rv t k r = some true) : Insert.admits t r = true := by
  unfold Insert.admits
  cases hs : t.stores_nulls_ with
  | true => rfl
  | false =>
    simp only [Bool.false_or, Bool.not_eq_true', Insert.has_null]
    rw [Bool.eq_false_iff]
    intro hany
    rw [List.any_eq_true] at hany
    obtain ⟨e, he, hv⟩ := hany
    obtain ⟨j, hj, hje⟩ := List.getElem_of_mem he
    unfold EqualsFn at h
    cases hsel : t.select k with
    | none => rw [hsel] at h; cases h
    | some sel =>
      rw [hsel] at h
      simp only at h
      obtain ⟨e1, e2, -, h2, -, hc⟩ := (EqualsFn.loop_eq_true_iff rv t.stores_nulls_ sel.1
        t.build_exprs_ sel.2 r t.build_exprs_.length 0).mp h j (Nat.zero_le j) (by omega)
      rw [List.getElem?_eq_getElem hj, hje] at h2
      simp only [Option.some.injEq] at h2
      subst h2
      have hnone : e.GetValue r = none := by
        cases hg : e.GetValue r with
        | none => rfl
        | some v => rw [hg] at hv; cases hv
      rw [hs, hnone, column_equal_none_right] at hc
      cases hc

theorem Insert.admits_congr {ρ ν τ : Type} (t1 t2 : HashTable ρ ν τ) (r r' : ρ)
    (hb : t1.build_exprs_ = t2.build_exprs_) (hs : t1.stores_nulls_ = t2.stores_nulls_)
    (hkey : ∀ e ∈ t2.build_exprs_, e.GetValue r = e.GetValue r') :
    Insert.admits t1 r = Insert.admits t2 r' := by
  have hn : Insert.has_null t1 r = Insert.has_null t2 r' := by
    unfold Insert.has_null
    rw [hb, Bool.eq_iff_iff, List.any_eq_true, List.any_eq_true]
    constructor
    · rintro ⟨e, he, hv⟩
      exact ⟨e, he, by rw [← hkey e he]; exact hv⟩
    · rintro ⟨e, he, hv⟩
      exact ⟨e, he, by rw [hkey e he]; exact hv⟩
  unfold Insert.admits
  rw [hs, hn]

theorem Scan_table {ρ ν τ : Type} [DecidableEq τ] (rv : RawValue ν τ) (t t' : HashTable ρ ν τ)
    (probe_row : Option ρ) (it it' : Iterator ρ)
    (h : Scan rv t probe_row it = some (t', it')) :
    t' = { t with current_probe_row_ := probe_row } ∧ ∀ x ∈ it'.range, x ∈ t.hash_tbl_.elems := by
  unfold Scan at h
  cases probe_row with
  | none =>
    simp only [Option.some.injEq, Prod.mk.injEq] at h
    obtain ⟨h1, h2⟩ := h
    subst h1; subst h2
    exact ⟨rfl, fun x hx => hx⟩
  | some p =>
    simp only at h
    cases hr : HashSet.equal_range (HashFn rv { t with current_probe_row_ := some p })
        (EqualsFn rv { t with current_probe_row_ := some p }) t.hash_tbl_ none with
    | none => rw [hr] at h; cases h
    | some range =>
      rw [hr] at h
      simp only [Option.some.injEq, Prod.mk.injEq] at h
      obtain ⟨h1, h2⟩ := h
      subst h1; subst h2
      refine ⟨rfl, ?_⟩
      intro x hx
      unfold HashSet.equal_range at hr
      cases hh : HashFn rv { t with current_probe_row_ := some p } none with
      | none => rw [hh] at hr; cases hr
      | some hk =>
        rw [hh] at hr
        exact (HashSet.equal_range.go_mem _ _ _ _ _ _ _ hr x hx).1

theorem admitted_rows_mem {ρ ν τ : Type} (build_exprs : List (Expr ρ ν τ)) (sn : Bool) :
    ∀ (calls : List (Call ρ)) (x : ρ), x ∈ admitted_rows build_exprs sn calls →
      (sn || !build_exprs.any (fun e => (e.GetValue x).isNone)) = true := by
  intro calls
  induction calls with
  | nil => intro x hx; cases hx
  | cons c cs ih =>
    intro x hx
    cases c with
    | insert r =>
      simp only [admitted_rows] at hx
      split at hx
      · rename_i hadm
        rcases List.mem_cons.mp hx with h | h
        · subst h; exact hadm
        · exact ih x h
      · exact ih x hx
    | scan p =>
      simp only [admitted_rows] at hx
      exact ih x hx

theorem run_elems {ρ ν τ : Type} [DecidableEq τ] (rv : RawValue ν τ) :
    ∀ (calls : List (Call ρ)) (t0 t : HashTable ρ ν τ), run rv t0 calls = some t →
      t.build_exprs_ = t0.build_exprs_ ∧ t.probe_exprs_ = t0.probe_exprs_ ∧
      t.stores_nulls_ = t0.stores_nulls_ ∧
      t.hash_tbl_.elems =
        (admitted_rows t0.build_exprs_ t0.stores_nulls_ calls).reverse ++ t0.hash_tbl_.elems := by
  intro calls
  induction calls with
  | nil =>
    intro t0 t h
    simp only [run, Option.some.injEq] at h
    subst h
    simp [admitted_rows]
  | cons c cs ih =>
    intro t0 t h
    cases c with
    | insert r =>
      simp only [run, Call.apply] at h
      obtain ⟨hb, hp, hs, he⟩ := ih (Insert t0 r) t h
      obtain ⟨hfb, hfp, -, hfs, -⟩ := Insert_fields t0 r
      rw [hfb, hfs] at he
      refine ⟨hb.trans hfb, hp.trans hfp, hs.trans hfs, ?_⟩
      rw [he, Insert_elems]
      simp only [admitted_rows, Insert.admits, Insert.has_null]
      split <;> simp
    | scan p =>
      simp only [run, Call.apply] at h
      cases hsc : Scan rv t0 p { range := [] } with
      | none => rw [hsc] at h; cases h
      | some res =>
        obtain ⟨t1, it1⟩ := res
        rw [hsc] at h
        simp only at h
        obtain ⟨ht1, -⟩ := Scan_table rv t0 t1 p _ it1 hsc
        subst ht1
        obtain ⟨hb, hp, hs, he⟩ := ih _ t h
        exact ⟨hb, hp, hs, by rw [he]; simp [admitted_rows]⟩

theorem HashSet.equal_range.go_defined {ρ : Type} (hash : Option ρ → Option Nat)
    (eq : Option ρ → ρ → Option Bool) (n : Nat) (k : Option ρ) (hk : Nat) :
    ∀ es : List ρ, (∀ e ∈ es, ∃ he, hash (some e) = some he) → (∀ e ∈ es, ∃ b, eq k e = some b) →
      ∃ l, HashSet.equal_range.go hash eq n k hk es = some l := by
  intro es
  induction es with
  | nil => intro _ _; exact ⟨[], rfl⟩
  | cons e es ih =>
    intro hh hb
    obtain ⟨he, hhash⟩ := hh e (List.mem_cons_self e es)
    obtain ⟨b, hbe⟩ := hb e (List.mem_cons_self e es)
    obtain ⟨l, hl⟩ := ih (fun x hx => hh x (List.mem_cons_of_mem e hx))
      (fun x hx => hb x (List.mem_cons_of_mem e hx))
    rw [HashSet.equal_range.go, hhash]
    simp only [hl, hbe]
    split
    · exact ⟨_, rfl⟩
    · exact ⟨_, rfl⟩

theorem Scan_defined {ρ ν τ : Type} [DecidableEq τ] (rv : RawValue ν τ) (t : HashTable ρ ν τ)
    (probe_row : Option ρ) (it : Iterator ρ)
    (hlen : t.build_exprs_.length ≤ t.probe_exprs_.length)
    (htypes : TypesMatch t.probe_exprs_ t.build_exprs_) :
    ∃ it', Scan rv t probe_row it = some ({ t with current_probe_row_ := probe_row }, it') := by
  cases probe_row with
  | none => exact ⟨_, rfl⟩
  | some p =>
    have hsel : ({ t with current_probe_row_ := some p } : HashTable ρ ν τ).select none =
        some (t.probe_exprs_, p) := rfl
    obtain ⟨l, hl⟩ := HashSet.equal_range.go_defined
      (HashFn rv { t with current_probe_row_ := some p })
      (EqualsFn rv { t with current_probe_row_ := some p }) t.hash_tbl_.bucket_count none
      (t.probe_exprs_.foldl (fun seed expr => hash_combine seed (HashFn.hash_value rv p expr)) 0)
      t.hash_tbl_.elems (fun e _ => ⟨_, rfl⟩)
      (fun e _ => ⟨_, EqualsFn_eq_reference rv _ none e t.probe_exprs_ p hsel hlen htypes⟩)
    refine ⟨{ range := l }, ?_⟩
    simp only [Scan, HashSet.equal_range, HashFn, HashTable.select, Iterator.Reset]
    rw [hl]

theorem run_defined {ρ ν τ : Type} [DecidableEq τ] (rv : RawValue ν τ) :
    ∀ (calls : List (Call ρ)) (t0 : HashTable ρ ν τ),
      t0.build_exprs_.length ≤ t0.probe_exprs_.length →
      TypesMatch t0.probe_exprs_ t0.build_exprs_ → ∃ t, run rv t0 calls = some t := by
  intro calls
  induction calls with
  | nil => intro t0 _ _; exact ⟨t0, rfl⟩
  | cons c cs ih =>
    intro t0 hlen htypes
    cases c with
    | insert r =>
      obtain ⟨hfb, hfp, -, -, -⟩ := Insert_fields t0 r
      obtain ⟨t, ht⟩ := ih (Insert t0 r) (by rw [hfb, hfp]; exact hlen)
        (by rw [hfb, hfp]; exact htypes)
      exact ⟨t, by simp only [run, Call.apply]; exact ht⟩
    | scan p =>
      obtain ⟨it', hsc⟩ := Scan_defined rv t0 p { range := [] } hlen htypes
      obtain ⟨t, ht⟩ := ih { t0 with current_probe_row_ := p } hlen htypes
      exact ⟨t, by simp only [run, Call.apply, hsc]; exact ht⟩

theorem Scenario.two_column_equals (rv : RawValue Scenario.Datum Scenario.PrimitiveType)
    (t : HashTable Scenario.TupleRow Scenario.Datum Scenario.PrimitiveType)
    (hb : t.build_exprs_ = [Scenario.SlotRef 0 Scenario.PrimitiveType.TYPE_INT,
      Scenario.SlotRef 1 Scenario.PrimitiveType.TYPE_INT])
    (k : Option Scenario.TupleRow) (row r : Scenario.TupleRow)
    (hsel : t.select k = some ([Scenario.SlotRef 0 Scenario.PrimitiveType.TYPE_INT,
      Scenario.SlotRef 1 Scenario.PrimitiveType.TYPE_INT], row)) :
    EqualsFn rv t k r = some
      (column_equal rv t.stores_nulls_ Scenario.PrimitiveType.TYPE_INT
          (row.slots.getD 0 none) (r.slots.getD 0 none) &&
        column_equal rv t.stores_nulls_ Scenario.PrimitiveType.TYPE_INT
          (row.slots.getD 1 none) (r.slots.getD 1 none)) := by
  rw [EqualsFn_eq_reference rv t k r _ row hsel (by rw [hb])
    (by rw [hb]; exact TypesMatch.refl _), hb]
  simp [EqualsFn.reference, Scenario.SlotRef]

theorem Scenario.two_column_hash (rv : RawValue Scenario.Datum Scenario.PrimitiveType)
    (t : HashTable Scenario.TupleRow Scenario.Datum Scenario.PrimitiveType)
    (hb : t.build_exprs_ = [Scenario.SlotRef 0 Scenario.PrimitiveType.TYPE_INT,
      Scenario.SlotRef 1 Scenario.PrimitiveType.TYPE_INT])
    (hp : t.probe_exprs_ = [Scenario.SlotRef 0 Scenario.PrimitiveType.TYPE_INT,
      Scenario.SlotRef 1 Scenario.PrimitiveType.TYPE_INT])
    (p r : Scenario.TupleRow) (hc : t.current_probe_row_ = some p)
    (hk0 : p.slots.getD 0 none = r.slots.getD 0 none)
    (hk1 : p.slots.getD 1 none = r.slots.getD 1 none) :
    HashFn rv t none = HashFn rv t (some r) := by
  apply HashFn_eq_of_same_key rv t p r hc
  rw [hb, hp]
  simp only [List.map_cons, List.map_nil, Scenario.SlotRef, hk0, hk1]

theorem Scan_targeted_sound {ρ ν τ : Type} [DecidableEq τ] (rv : RawValue ν τ)
    (t t' : HashTable ρ ν τ)
    (p : ρ) (it it' : Iterator ρ) (h : Scan rv t (some p) it = some (t', it')) :
    ∀ fuel, ∀ x ∈ it'.collect fuel, x ∈ t.hash_tbl_.elems ∧
      EqualsFn rv { t with current_probe_row_ := some p } none x = some true := by
  intro fuel x hx
  unfold Scan at h
  simp only at h
  cases hr : HashSet.equal_range (HashFn rv { t with current_probe_row_ := some p })
      (EqualsFn rv { t with current_probe_row_ := some p }) t.hash_tbl_ none with
  | none => rw [hr] at h; cases h
  | some range =>
    rw [hr] at h
    simp only [Option.some.injEq, Prod.mk.injEq] at h
    obtain ⟨-, h2⟩ := h
    subst h2
    simp only [Iterator.Reset, Iterator.collect_eq_take] at hx
    unfold HashSet.equal_range at hr
    cases hh : HashFn rv { t with current_probe_row_ := some p } none with
    | none => rw [hh] at hr; cases hr
    | some hk =>
      rw [hh] at hr
      exact HashSet.equal_range.go_mem _ _ _ _ _ _ _ hr x (List.mem_of_mem_take hx)

theorem HashFn_of_select {ρ ν τ : Type} (rv : RawValue ν τ) (t : HashTable ρ ν τ)
    (k : Option ρ) (exprs : List (Expr ρ ν τ)) (row : ρ)
    (hsel : t.select k = some (exprs, row)) :
    HashFn rv t k = some (exprs.foldl
      (fun seed expr => hash_combine seed (HashFn.hash_value rv row expr)) 0) := by
  unfold HashFn
  rw [hsel]

theorem HashFn_two_columns {ρ ν τ : Type} (rv : RawValue ν τ) (t : HashTable ρ ν τ)
    (k : Option ρ) (e1 e2 : Expr ρ ν τ) (row : ρ) (h1 h2 : Nat)
    (hsel : t.select k = some ([e1, e2], row))
    (he1 : HashFn.hash_value rv row e1 = h1) (he2 : HashFn.hash_value rv row e2 = h2) :
    HashFn rv t k = some (hash_combine (hash_combine 0 h1) h2) := by
  rw [HashFn_of_select rv t k _ row hsel, List.foldl_cons, List.foldl_cons, List.foldl_nil,
    he1, he2]

theorem Iterator.advance_exhausted {ρ : Type} (it : Iterator ρ) (h : it.GetNext.1 = none) :
    ∀ n, Iterator.advance n it = it := by
  have h2 : it.GetNext.2 = it := by
    cases it with
    | mk range =>
      cases range with
      | nil => rfl
      | cons r rest => simp [Iterator.GetNext] at h
  intro n
  induction n with
  | zero => rfl
  | succ n ih => rw [Iterator.advance, h2, ih]

theorem Iterator.advance_range {ρ : Type} :
    ∀ (n : Nat) (l : List ρ), Iterator.advance n { range := l } = { range := l.drop n } := by
  intro n
  induction n with
  | zero => intro l; rfl
  | succ n ih =>
    intro l
    cases l with
    | nil => rw [Iterator.advance]; simp only [Iterator.GetNext]; rw [ih]; simp
    | cons r rest => rw [Iterator.advance]; simp only [Iterator.GetNext]; rw [ih]; simp

theorem hash_combine_lt (seed v : Nat) : hash_combine seed v < 2 ^ 64 := by
  unfold hash_combine SIZE_T_MOD
  exact Nat.mod_lt _ (by norm_num)

theorem hash_combine_eq_reference (seed v v' : Nat) (hs : seed < 2 ^ 64)
    (hv : v' % 2 ^ 64 = v % 2 ^ 64) : hash_combine seed v = hash_combine_reference seed v' := by
  have hX : (v + 0x9e3779b9 + seed <<< 6 + seed >>> 2) % 2 ^ 64 =
      (((v' + 0x9e3779b9) % 2 ^ 64 + (seed * 2 ^ 6) % 2 ^ 64) % 2 ^ 64 + seed / 2 ^ 2) % 2 ^ 64 := by
    rw [Nat.shiftLeft_eq, Nat.shiftRight_eq_div_pow]
    simp only [Nat.reducePow] at hv ⊢
    omega
  unfold hash_combine hash_combine_reference size_t SIZE_T_MOD
  rw [hX]
  exact Nat.mod_eq_of_lt (Nat.xor_lt_two_pow hs (Nat.mod_lt _ (by norm_num)))

theorem HashFn.foldl_eq_reference {ρ ν τ : Type} (rv : RawValue ν τ) (row : ρ) :
    ∀ (exprs : List (Expr ρ ν τ)) (seed : Nat), seed < 2 ^ 64 →
      exprs.foldl (fun seed expr => hash_combine seed (HashFn.hash_value rv row expr)) seed =
        (exprs.map (fun e => (e.GetValue row, e.type))).foldl (fun seed column =>
          hash_combine_reference seed
            (match column.1 with
             | none => 0
             | some value => size_t (rv.GetHashValue value column.2))) seed := by
  intro exprs
  induction exprs with
  | nil => intro seed _; simp only [List.map_nil, List.foldl_nil]
  | cons e es ih =>
    intro seed hs
    have hstep : hash_combine seed (HashFn.hash_value rv row e) =
        hash_combine_reference seed
          (match (e.GetValue row, e.type).1 with
           | none => 0
           | some value => size_t (rv.GetHashValue value (e.GetValue row, e.type).2)) := by
      unfold HashFn.hash_value
      cases e.GetValue row with
      | none => exact hash_combine_eq_reference seed 0 0 hs rfl
      | some v =>
        exact hash_combine_eq_reference seed _ _ hs (by unfold size_t; exact Nat.mod_mod _ _)
    simp only [List.map_cons, List.foldl_cons]
    rw [← hstep]
    exact ih _ (hash_combine_lt _ _)

theorem admitted_no_null {ρ ν τ : Type} (build_exprs : List (Expr ρ ν τ)) (x : ρ)
    (h : (false || !build_exprs.any (fun e => (e.GetValue x).isNone)) = true) :
    ∀ e ∈ build_exprs, (e.GetValue x).isSome = true := by
  intro e he
  simp only [Bool.false_or, Bool.not_eq_true', List.any_eq_false] at h
  have := h e he
  cases hv : e.GetValue x with
  | none => rw [hv] at this; simp at this
  | some v => rfl

theorem HashFn.DCHECK_of_admits {ρ ν τ : Type} (t : HashTable ρ ν τ) (r : ρ)
    (h : Insert.admits t r = true) : HashFn.DCHECK t (some r) = true := by
  unfold HashFn.DCHECK
  simp only [HashTable.select, Option.isNone_some, Bool.or_false, List.all_eq_true,
    Bool.or_eq_true]
  intro e he
  cases hs : t.stores_nulls_ with
  | true => exact Or.inl rfl
  | false =>
    right
    unfold Insert.admits Insert.has_null at h
    rw [hs] at h
    exact admitted_no_null t.build_exprs_ r h e he

theorem EqualsFn_build_true_iff {ρ ν τ : Type} [DecidableEq τ] (rv : RawValue ν τ)
    (t : HashTable ρ ν τ)
    (a b : ρ) : EqualsFn rv t (some a) b = some true ↔
      ∀ e ∈ t.build_exprs_,
        column_equal rv t.stores_nulls_ e.type (e.GetValue a) (e.GetValue b) = true := by
  unfold EqualsFn
  simp only [HashTable.select]
  rw [EqualsFn.loop_eq_true_iff]
  constructor
  · intro h e he
    obtain ⟨j, hj, hje⟩ := List.getElem_of_mem he
    obtain ⟨e1, e2, h1, h2, -, hc⟩ := h j (Nat.zero_le j) (by omega)
    rw [List.getElem?_eq_getElem hj, hje] at h1 h2
    simp only [Option.some.injEq] at h1 h2
    subst h1; subst h2
    exact hc
  · intro h j _ hj
    have hj' : j < t.build_exprs_.length := by omega
    exact ⟨_, _, List.getElem?_eq_getElem hj', List.getElem?_eq_getElem hj', rfl,
      h _ (List.getElem_mem hj')⟩

theorem column_equal_symm {ν τ : Type} (rv : RawValue ν τ) (sn : Bool) (ty : τ)
    (hsymm : ∀ a b ty, rv.Compare a b ty = 0 → rv.Compare b a ty = 0) (x y : Option ν)
    (h : column_equal rv sn ty x y = true) : column_equal rv sn ty y x = true := by
  cases x <;> cases y <;> simp only [column_equal, decide_eq_true_eq] at h ⊢
  · exact h
  · cases h
  · cases h
  · exact hsymm _ _ _ h

theorem column_equal_trans {ν τ : Type} (rv : RawValue ν τ) (sn : Bool) (ty : τ)
    (htrans : ∀ a b c ty, rv.Compare a b ty = 0 → rv.Compare b c ty = 0 → rv.Compare a c ty = 0)
    (x y z : Option ν) (h1 : column_equal rv sn ty x y = true)
    (h2 : column_equal rv sn ty y z = true) : column_equal rv sn ty x z = true := by
  cases x <;> cases y <;> cases z <;> simp only [column_equal, decide_eq_true_eq] at h1 h2 ⊢
  all_goals first | exact h1 | exact h2 | cases h1 | cases h2 | exact htrans _ _ _ _ h1 h2

theorem Scenario.Compare_eq_zero_iff (v1 v2 : Scenario.Datum) (ty : Scenario.PrimitiveType) :
    Scenario.raw_value.Compare v1 v2 ty = 0 ↔ v1 = v2 := by
  cases v1 with
  | int a =>
    cases v2 with
    | int b =>
      rw [Scenario.Compare_int]
      exact ⟨fun h => by rw [h], fun h => by injection h⟩
    | str b => simp [Scenario.raw_value, Scenario.Compare]
  | str a =>
    cases v2 with
    | int b => simp [Scenario.raw_value, Scenario.Compare]
    | str b =>
      simp only [Scenario.raw_value, Scenario.Compare, Scenario.Datum.str.injEq]
      constructor
      · intro h
        by_contra hne
        rcases lt_or_gt_of_ne hne with h1 | h1
        · simp [h1] at h
        · have : ¬ a < b := not_lt.mpr (le_of_lt h1)
          simp [this, h1] at h
      · intro h
        subst h
        simp

theorem Scenario.Compare_refl (a : Scenario.Datum) (ty : Scenario.PrimitiveType) :
    Scenario.raw_value.Compare a a ty = 0 :=
  (Scenario.Compare_eq_zero_iff a a ty).mpr rfl

theorem Scenario.Compare_symm (a b : Scenario.Datum) (ty : Scenario.PrimitiveType)
    (h : Scenario.raw_value.Compare a b ty = 0) : Scenario.raw_value.Compare b a ty = 0 :=
  (Scenario.Compare_eq_zero_iff b a ty).mpr ((Scenario.Compare_eq_zero_iff a b ty).mp h).symm

theorem Scenario.Compare_trans (a b c : Scenario.Datum) (ty : Scenario.PrimitiveType)
    (h1 : Scenario.raw_value.Compare a b ty = 0) (h2 : Scenario.raw_value.Compare b c ty = 0) :
    Scenario.raw_value.Compare a c ty = 0 :=
  (Scenario.Compare_eq_zero_iff a c ty).mpr
    (((Scenario.Compare_eq_zero_iff a b ty).mp h1).trans ((Scenario.Compare_eq_zero_iff b c ty).mp h2))

theorem column_equal_none_left {ν τ : Type} (rv : RawValue ν τ) (ty : τ) (v : Option ν) :
    column_equal rv false ty none v = false := by
  cases v <;> rfl

theorem EqualsFn.loop_eq_none_iff {ρ ν τ : Type} [DecidableEq τ] (rv : RawValue ν τ) (sn : Bool)
    (r1_exprs build_exprs : List (Expr ρ ν τ)) (r1_row r2 : ρ)
    (hshort : r1_exprs.length < build_exprs.length)
    (htypes : TypesMatch r1_exprs build_exprs) :
    ∀ n i, i + n = build_exprs.length → i ≤ r1_exprs.length →
      (EqualsFn.loop rv sn r1_exprs build_exprs r1_row r2 n i = none ↔
        ∀ j, i ≤ j → j < r1_exprs.length → ∃ e1 e2, r1_exprs[j]? = some e1 ∧
          build_exprs[j]? = some e2 ∧
          column_equal rv sn e1.type (e1.GetValue r1_row) (e2.GetValue r2) = true) := by
  intro n
  induction n with
  | zero => intro i h1 h2; omega
  | succ n ih =>
    intro i hin hile
    rcases Nat.eq_or_lt_of_le hile with heq | hlt
    · have hnone : r1_exprs[i]? = none := List.getElem?_eq_none (by omega)
      rw [EqualsFn.loop_oob rv sn r1_exprs build_exprs r1_row r2 n i (Or.inl hnone)]
      constructor
      · intro _ j h1 h2; omega
      · intro _; rfl
    · have hi2 : i < build_exprs.length := by omega
      rw [EqualsFn.loop_succ rv sn r1_exprs build_exprs r1_row r2 n i _ _
        (List.getElem?_eq_getElem hlt) (List.getElem?_eq_getElem hi2)
        (htypes i _ _ (List.getElem?_eq_getElem hlt) (List.getElem?_eq_getElem hi2))]
      cases hc : column_equal rv sn r1_exprs[i].type (r1_exprs[i].GetValue r1_row)
          (build_exprs[i].GetValue r2) with
      | false =>
        constructor
        · intro h; simp at h
        · intro h
          obtain ⟨e1, e2, h1, h2, hc'⟩ := h i (le_refl i) hlt
          rw [List.getElem?_eq_getElem hlt] at h1
          rw [List.getElem?_eq_getElem hi2] at h2
          simp only [Option.some.injEq] at h1 h2
          subst h1; subst h2
          rw [hc] at hc'; cases hc'
      | true =>
        simp only [if_true]
        rw [ih (i + 1) (by omega) (by omega)]
        constructor
        · intro h j hij hj
          rcases Nat.eq_or_lt_of_le hij with heq | hlt'
          · subst heq
            exact ⟨_, _, List.getElem?_eq_getElem hlt, List.getElem?_eq_getElem hi2, hc⟩
          · exact h j (by omega) hj
        · intro h j hij hj
          exact h j (by omega) hj

theorem Scenario.short_probe_types :
    TypesMatch (Scenario.short_probe true).probe_exprs_ (Scenario.short_probe true).build_exprs_ := by
  intro i e1 e2 h1 h2
  cases i with
  | zero =>
    simp only [Scenario.short_probe, HashTable.new, List.getElem?_cons_zero,
      Option.some.injEq] at h1 h2
    rw [← h1, ← h2]
  | succ n =>
    simp [Scenario.short_probe, HashTable.new] at h1

/-! ## The claims -/

/-- C1: in a table with `stores_nulls = false`, `Insert` of a row on which at
least one build expression evaluates to null returns the table as it was, so
the stored entries are unchanged; `Insert` is total, no error is raised. -/
theorem Insert_discards_null_key {ρ ν τ : Type} (t : HashTable ρ ν τ) (r : ρ)
    (hs : t.stores_nulls_ = false) (hn : ∃ e ∈ t.build_exprs_, e.GetValue r = none) :
    Insert t r = t ∧ (Insert t r).hash_tbl_.elems = t.hash_tbl_.elems := by
  have hnull : Insert.has_null t r = true := by
    obtain ⟨e, he, hv⟩ := hn
    simp only [Insert.has_null, List.any_eq_true]
    exact ⟨e, he, by rw [hv]; rfl⟩
  have : Insert t r = t := by simp [Insert, hs, hnull]
  exact ⟨this, by rw [this]⟩

/-- Witness for C1: the row `(null, 2)` offered to a one-column table that
does not store nulls, after `(1, "a")` was stored. -/
theorem Insert_discards_null_key_witness :
    (Insert (Scenario.one_column false) Scenario.row_1a).stores_nulls_ = false ∧
    (∃ e ∈ (Insert (Scenario.one_column false) Scenario.row_1a).build_exprs_,
      e.GetValue Scenario.row_n2 = none) ∧
    (Insert (Insert (Scenario.one_column false) Scenario.row_1a) Scenario.row_n2).hash_tbl_.elems
      = [Scenario.row_1a] :=
  ⟨rfl, ⟨Scenario.SlotRef 0 Scenario.PrimitiveType.TYPE_INT, List.mem_singleton.mpr rfl, rfl⟩,
    (Insert_discards_null_key (Insert (Scenario.one_column false) Scenario.row_1a)
      Scenario.row_n2 rfl
      ⟨Scenario.SlotRef 0 Scenario.PrimitiveType.TYPE_INT, List.mem_singleton.mpr rfl, rfl⟩).2⟩

/-- C2: when `stores_nulls` is true or no build expression evaluates to null
on `r`, `Insert(r)` adds one occurrence of `r` and keeps every earlier entry,
whatever is already stored: the count of every other reference is unchanged,
the count of `r` grows by one and the size grows by one. -/
theorem Insert_adds_one_occurrence {ρ ν τ : Type} [DecidableEq ρ] (t : HashTable ρ ν τ)
    (r : ρ) (h : t.stores_nulls_ = true ∨ ∀ e ∈ t.build_exprs_, e.GetValue r ≠ none) :
    (∀ x, (Insert t r).hash_tbl_.count x = t.hash_tbl_.count x + if x = r then 1 else 0) ∧
    (Insert t r).hash_tbl_.count r = t.hash_tbl_.count r + 1 ∧
    (Insert t r).hash_tbl_.size = t.hash_tbl_.size + 1 := by
  have hins : Insert t r = { t with hash_tbl_ := t.hash_tbl_.insert r } := by
    rcases h with h | h
    · simp [Insert, h]
    · have : Insert.has_null t r = false := by
        rw [Bool.eq_false_iff]
        intro hn
        simp only [Insert.has_null, List.any_eq_true] at hn
        obtain ⟨e, he, hv⟩ := hn
        apply h e he
        cases hg : e.GetValue r with
        | none => rfl
        | some v => rw [hg] at hv; cases hv
      simp [Insert, this]
  rw [hins]
  refine ⟨?_, ?_, ?_⟩
  · intro x
    by_cases hx : x = r
    · subst hx; simp [HashSet.count, HashSet.insert]
    · have hx' : ¬ r = x := fun h => hx h.symm
      simp [HashSet.count, HashSet.insert, List.count_cons, hx, hx']
  · simp [HashSet.count, HashSet.insert]
  · simp [HashSet.size, HashSet.insert]

/-- Witness for C2: `(1, "a")` inserted a second time (the same reference)
into a table that does not store nulls. -/
theorem Insert_adds_one_occurrence_witness :
    (∀ e ∈ (Insert (Scenario.one_column false) Scenario.row_1a).build_exprs_,
      e.GetValue Scenario.row_1a ≠ none) ∧
    (Insert (Insert (Scenario.one_column false) Scenario.row_1a)
      Scenario.row_1a).hash_tbl_.count Scenario.row_1a =
      (Insert (Scenario.one_column false) Scenario.row_1a).hash_tbl_.count Scenario.row_1a + 1 :=
  have hv : ∀ e ∈ (Insert (Scenario.one_column false) Scenario.row_1a).build_exprs_,
      e.GetValue Scenario.row_1a ≠ none := by
    intro e he
    have : e = Scenario.SlotRef 0 Scenario.PrimitiveType.TYPE_INT := List.mem_singleton.mp he
    rw [this]
    simp [Scenario.SlotRef, Scenario.row_1a]
  ⟨hv, (Insert_adds_one_occurrence (Insert (Scenario.one_column false) Scenario.row_1a)
    Scenario.row_1a (Or.inr hv)).2.1⟩

/-- C3: `Scan(p)` with a probe row `p` yields stored rows only, and only rows
for which the equality functor in probe mode (sentinel on the left, so the
probe expressions on `p`; the row on the right with the build expressions)
returns true. For a collaborator whose hash respects `Compare` and a table
whose expression lists are aligned, it returns, with `p` as current probe
row, an iterator that yields every such row as many times as it is stored.
Scenario: with rows `(1,"a")`, `(2,"b")`, `(1,"a")` keyed on column 0 in a
table that does not store nulls, and any `Compare` that is equality on
integers, probe key 1 yields the two `(1,"a")` rows and probe key 3 nothing. -/
theorem Scan_yields_equal_rows :
    (∀ {ρ ν τ : Type} [DecidableEq τ] [DecidableEq ρ] (rv : RawValue ν τ) (t : HashTable ρ ν τ) (p : ρ)
      (it : Iterator ρ), HashRespectsCompare rv → TypesAligned t →
      ∃ it', Scan rv t (some p) it = some ({ t with current_probe_row_ := some p }, it') ∧
        ∀ fuel, t.hash_tbl_.size ≤ fuel → ∀ r, (it'.collect fuel).count r =
          if EqualsFn rv { t with current_probe_row_ := some p } none r = some true
          then t.hash_tbl_.count r else 0) ∧
    (∀ (rv : RawValue Scenario.Datum Scenario.PrimitiveType),
      (∀ a b ty, rv.Compare (Scenario.Datum.int a) (Scenario.Datum.int b) ty = 0 ↔ a = b) →
      ∀ it : Iterator Scenario.TupleRow,
      (∃ t' it', Scan rv Scenario.built_1a_2b_1a (some (Scenario.probe_key 1)) it
          = some (t', it') ∧
        ∀ fuel, 3 ≤ fuel →
          List.Perm (it'.collect fuel) [Scenario.row_1a, Scenario.row_1a_again]) ∧
      (∃ t' it', Scan rv Scenario.built_1a_2b_1a (some (Scenario.probe_key 3)) it
          = some (t', it') ∧
        ∀ fuel, it'.collect fuel = [])) ∧
    (∀ {ρ ν τ : Type} [DecidableEq τ] (rv : RawValue ν τ) (t t' : HashTable ρ ν τ) (p : ρ)
      (it it' : Iterator ρ), Scan rv t (some p) it = some (t', it') →
      ∀ fuel, ∀ x ∈ it'.collect fuel, x ∈ t.hash_tbl_.elems ∧
        EqualsFn rv { t with current_probe_row_ := some p } none x = some true) :=
  ⟨fun rv t p it hrc hty => Scan_targeted_count rv t p it hrc hty,
    fun rv hcmp it => Scenario.one_column_scan rv hcmp it,
    fun rv t t' p it it' h => Scan_targeted_sound rv t t' p it it' h⟩

/-- Witness for C3: the modelled collaborator respects `Compare` and is
equality on integers, the scenario table is aligned; the general statement
applies to probe key 1 and the scenario holds for that collaborator. -/
theorem Scan_yields_equal_rows_witness :
    HashRespectsCompare Scenario.raw_value ∧ TypesAligned Scenario.built_1a_2b_1a ∧
    (∃ it', Scan Scenario.raw_value Scenario.built_1a_2b_1a (some (Scenario.probe_key 1))
        { range := [] } =
        some ({ Scenario.built_1a_2b_1a with
          current_probe_row_ := some (Scenario.probe_key 1) }, it') ∧
      ∀ fuel, Scenario.built_1a_2b_1a.hash_tbl_.size ≤ fuel → ∀ r,
        (it'.collect fuel).count r =
          if EqualsFn Scenario.raw_value { Scenario.built_1a_2b_1a with
            current_probe_row_ := some (Scenario.probe_key 1) } none r = some true
          then Scenario.built_1a_2b_1a.hash_tbl_.count r else 0) ∧
    (∃ t' it', Scan Scenario.raw_value Scenario.built_1a_2b_1a (some (Scenario.probe_key 3))
        { range := [] } = some (t', it') ∧ ∀ fuel, it'.collect fuel = []) :=
  ⟨Scenario.raw_value_respects, rfl,
    Scan_yields_equal_rows.1 Scenario.raw_value Scenario.built_1a_2b_1a (Scenario.probe_key 1)
      { range := [] } Scenario.raw_value_respects rfl,
    (Scan_yields_equal_rows.2.1 Scenario.raw_value Scenario.Compare_int { range := [] }).2⟩

/-- C4: let `r1` and `r2` be build rows whose build-key columns have the same
values column by column, and `p` a probe row whose probe key the equality
functor judges equal to the key of `r1`. After inserting both, `Scan(p)`
yields both `r1` and `r2`: every row is yielded as often as by the scan before
the two inserts, plus once if it is `r1` and once if it is `r2` (twice when
`r1` and `r2` are the same reference). The collaborator's hash respects
`Compare` and the expression lists are aligned. -/
theorem Scan_returns_both_duplicates {ρ ν τ : Type} [DecidableEq τ] [DecidableEq ρ]
    (rv : RawValue ν τ)
    (t : HashTable ρ ν τ) (r1 r2 p : ρ) (it : Iterator ρ)
    (hrc : HashRespectsCompare rv) (hty : TypesAligned t)
    (hkey : ∀ e ∈ t.build_exprs_, e.GetValue r1 = e.GetValue r2)
    (hmatch : EqualsFn rv { t with current_probe_row_ := some p } none r1 = some true) :
    ∃ it0 it', Scan rv t (some p) it = some ({ t with current_probe_row_ := some p }, it0) ∧
      Scan rv (Insert (Insert t r1) r2) (some p) it =
        some ({ Insert (Insert t r1) r2 with current_probe_row_ := some p }, it') ∧
      ∀ fuel, (Insert (Insert t r1) r2).hash_tbl_.size ≤ fuel →
        r1 ∈ it'.collect fuel ∧ r2 ∈ it'.collect fuel ∧
        ∀ x, (it'.collect fuel).count x =
          (it0.collect fuel).count x + (if x = r1 then 1 else 0) + (if x = r2 then 1 else 0) := by
  obtain ⟨hf1b, hf1p, hf1c, hf1s, -⟩ := Insert_fields t r1
  obtain ⟨hf2b, hf2p, hf2c, hf2s, -⟩ := Insert_fields (Insert t r1) r2
  have hty2 : TypesAligned (Insert (Insert t r1) r2) := by
    unfold TypesAligned
    rw [hf2b, hf2p, hf1b, hf1p]
    exact hty
  have hmatch2 : EqualsFn rv { t with current_probe_row_ := some p } none r2 = some true := by
    rw [← EqualsFn_right_congr rv { t with current_probe_row_ := some p } none r1 r2 hkey]
    exact hmatch
  have hcongr : ∀ x, EqualsFn rv { Insert (Insert t r1) r2 with current_probe_row_ := some p }
      none x = EqualsFn rv { t with current_probe_row_ := some p } none x := by
    intro x
    apply EqualsFn_congr
    · show (Insert (Insert t r1) r2).build_exprs_ = t.build_exprs_
      rw [hf2b, hf1b]
    · show (Insert (Insert t r1) r2).probe_exprs_ = t.probe_exprs_
      rw [hf2p, hf1p]
    · rfl
    · show (Insert (Insert t r1) r2).stores_nulls_ = t.stores_nulls_
      rw [hf2s, hf1s]
  have hadm1 : Insert.admits t r1 = true :=
    (Insert.admits_congr t { t with current_probe_row_ := some p } r1 r1 rfl rfl
      (fun _ _ => rfl)).trans (Insert.admits_of_equal rv _ none r1 hmatch)
  have hadm2 : Insert.admits (Insert t r1) r2 = true :=
    (Insert.admits_congr (Insert t r1) t r2 r1 hf1b hf1s (fun e he => (hkey e he).symm)).trans hadm1
  have helems : (Insert (Insert t r1) r2).hash_tbl_.elems = r2 :: r1 :: t.hash_tbl_.elems := by
    rw [Insert_elems, hadm2, if_pos rfl, Insert_elems, hadm1, if_pos rfl]
  obtain ⟨it0, hscan0, hcount0⟩ := Scan_targeted_count rv t p it hrc hty
  obtain ⟨it', hscan', hcount'⟩ := Scan_targeted_count rv (Insert (Insert t r1) r2) p it hrc hty2
  refine ⟨it0, it', hscan0, hscan', ?_⟩
  intro fuel hfuel
  have hfuel0 : t.hash_tbl_.size ≤ fuel := by
    have : (Insert (Insert t r1) r2).hash_tbl_.size = t.hash_tbl_.size + 2 := by
      simp [HashSet.size, helems]
    omega
  have hc : ∀ x, (it'.collect fuel).count x =
      (it0.collect fuel).count x + (if x = r1 then 1 else 0) + (if x = r2 then 1 else 0) := by
    intro x
    rw [hcount' fuel hfuel x, hcount0 fuel hfuel0 x, hcongr x]
    by_cases hx : EqualsFn rv { t with current_probe_row_ := some p } none x = some true
    · rw [if_pos hx, if_pos hx]
      simp only [HashSet.count, helems, List.count_cons, beq_iff_eq]
      have e1 : (r1 = x) = (x = r1) := propext eq_comm
      have e2 : (r2 = x) = (x = r2) := propext eq_comm
      simp only [e1, e2]
    · rw [if_neg hx, if_neg hx]
      have h1 : x ≠ r1 := fun h => hx (h ▸ hmatch)
      have h2 : x ≠ r2 := fun h => hx (h ▸ hmatch2)
      simp [h1, h2]
  refine ⟨?_, ?_, hc⟩
  · apply List.count_pos_iff.mp
    rw [hc r1]; simp
  · apply List.count_pos_iff.mp
    rw [hc r2]; simp


/-- Witness for C4: the rows `(1,"a")` at two addresses inserted into the empty
one-column table and probed with key 1. -/
theorem Scan_returns_both_duplicates_witness :
    HashRespectsCompare Scenario.raw_value ∧ TypesAligned (Scenario.one_column false) ∧
    (∀ e ∈ (Scenario.one_column false).build_exprs_,
      e.GetValue Scenario.row_1a = e.GetValue Scenario.row_1a_again) ∧
    EqualsFn Scenario.raw_value
      { Scenario.one_column false with current_probe_row_ := some (Scenario.probe_key 1) }
      none Scenario.row_1a = some true ∧
    ∃ it', Scan Scenario.raw_value
        (Insert (Insert (Scenario.one_column false) Scenario.row_1a) Scenario.row_1a_again)
        (some (Scenario.probe_key 1)) { range := [] } =
        some ({ Insert (Insert (Scenario.one_column false) Scenario.row_1a)
          Scenario.row_1a_again with current_probe_row_ := some (Scenario.probe_key 1) }, it') ∧
      Scenario.row_1a ∈ it'.collect 2 ∧ Scenario.row_1a_again ∈ it'.collect 2 :=
  have hkey : ∀ e ∈ (Scenario.one_column false).build_exprs_,
      e.GetValue Scenario.row_1a = e.GetValue Scenario.row_1a_again := by
    intro e he
    have : e = Scenario.SlotRef 0 Scenario.PrimitiveType.TYPE_INT := List.mem_singleton.mp he
    rw [this]
    rfl
  have hmatch : EqualsFn Scenario.raw_value
      { Scenario.one_column false with current_probe_row_ := some (Scenario.probe_key 1) }
      none Scenario.row_1a = some true := by decide
  ⟨Scenario.raw_value_respects, rfl, hkey, hmatch,
    match Scan_returns_both_duplicates Scenario.raw_value (Scenario.one_column false)
      Scenario.row_1a Scenario.row_1a_again (Scenario.probe_key 1) { range := [] }
      Scenario.raw_value_respects rfl hkey hmatch with
    | ⟨_, it', _, hscan, hall⟩ => ⟨it', hscan, (hall 2 (le_refl 2)).1, (hall 2 (le_refl 2)).2.1⟩⟩

/-- C5: in a table built with `stores_nulls = false`, after any sequence of
`Insert` and `Scan` calls from the empty table, a row with a null build-key
column is not stored, and no scan, targeted or full, yields it, whether or not
`Insert` was called on it. -/
theorem null_key_row_never_scanned {ρ ν τ : Type} [DecidableEq τ] (rv : RawValue ν τ)
    (build_exprs probe_exprs : List (Expr ρ ν τ)) (calls : List (Call ρ))
    (t : HashTable ρ ν τ) (r : ρ)
    (hrun : run rv (HashTable.new build_exprs probe_exprs false) calls = some t)
    (hnull : ∃ e ∈ build_exprs, e.GetValue r = none) :
    r ∉ t.hash_tbl_.elems ∧
    ∀ (probe_row : Option ρ) (it : Iterator ρ) (t' : HashTable ρ ν τ) (it' : Iterator ρ),
      Scan rv t probe_row it = some (t', it') → ∀ fuel, r ∉ it'.collect fuel := by
  have hstored : r ∉ t.hash_tbl_.elems := by
    obtain ⟨-, -, -, he⟩ := run_elems rv calls _ t hrun
    rw [he]
    intro hmem
    simp only [HashTable.new, List.append_nil, List.mem_reverse] at hmem
    have hadm := admitted_rows_mem build_exprs false calls r hmem
    obtain ⟨e, he, hv⟩ := hnull
    have hany : build_exprs.any (fun e => (e.GetValue r).isNone) = true :=
      List.any_eq_true.mpr ⟨e, he, by rw [hv]; rfl⟩
    rw [hany] at hadm
    cases hadm
  refine ⟨hstored, ?_⟩
  intro probe_row it t' it' hscan fuel hmem
  obtain ⟨-, hsub⟩ := Scan_table rv t t' probe_row it it' hscan
  cases it' with
  | mk range =>
    rw [Iterator.collect_eq_take] at hmem
    exact hstored (hsub r (List.mem_of_mem_take hmem))

/-- Witness for C5: `(1,"a")`, then the null-keyed `(null, 2)`, then a probe
with key 1, then `(2,"b")`, on the one-column table; `(null, 2)` is not
stored in the table reached. -/
theorem null_key_row_never_scanned_witness :
    ∃ t, run Scenario.raw_value (HashTable.new [Scenario.SlotRef 0 Scenario.PrimitiveType.TYPE_INT]
        [Scenario.SlotRef 0 Scenario.PrimitiveType.TYPE_INT] false)
        [Call.insert Scenario.row_1a, Call.insert Scenario.row_n2,
          Call.scan (some (Scenario.probe_key 1)), Call.insert Scenario.row_2b] = some t ∧
      (∃ e ∈ [Scenario.SlotRef 0 Scenario.PrimitiveType.TYPE_INT],
        e.GetValue Scenario.row_n2 = none) ∧
      Scenario.row_n2 ∉ t.hash_tbl_.elems :=
  match run_defined Scenario.raw_value
      [Call.insert Scenario.row_1a, Call.insert Scenario.row_n2,
        Call.scan (some (Scenario.probe_key 1)), Call.insert Scenario.row_2b]
      (HashTable.new [Scenario.SlotRef 0 Scenario.PrimitiveType.TYPE_INT]
        [Scenario.SlotRef 0 Scenario.PrimitiveType.TYPE_INT] false) (le_refl _)
      (TypesMatch.refl _) with
  | ⟨t, ht⟩ =>
    ⟨t, ht, ⟨_, List.mem_singleton.mpr rfl, rfl⟩,
      (null_key_row_never_scanned Scenario.raw_value _ _ _ t Scenario.row_n2 ht
        ⟨_, List.mem_singleton.mpr rfl, rfl⟩).1⟩

/-- C6: after any sequence of `Insert` and `Scan` calls from the empty table,
the full scan (no probe row) returns an iterator that yields each row
reference as many times as it was handed to `Insert` and passed the admission
check, which is as many times as it is stored, and nothing else. -/
theorem full_scan_yields_admitted_rows {ρ ν τ : Type} [DecidableEq τ] [DecidableEq ρ]
    (rv : RawValue ν τ)
    (build_exprs probe_exprs : List (Expr ρ ν τ)) (stores_nulls : Bool)
    (calls : List (Call ρ)) (t : HashTable ρ ν τ) (it : Iterator ρ)
    (hrun : run rv (HashTable.new build_exprs probe_exprs stores_nulls) calls = some t) :
    ∃ it', Scan rv t none it = some ({ t with current_probe_row_ := none }, it') ∧
      ∀ fuel, t.hash_tbl_.size ≤ fuel → ∀ r,
        (it'.collect fuel).count r = (admitted_rows build_exprs stores_nulls calls).count r ∧
        (it'.collect fuel).count r = t.hash_tbl_.count r := by
  refine ⟨{ range := t.hash_tbl_.elems }, rfl, ?_⟩
  intro fuel hfuel r
  obtain ⟨-, -, -, he⟩ := run_elems rv calls _ t hrun
  rw [Iterator.collect_of_le fuel _ hfuel]
  refine ⟨?_, rfl⟩
  rw [he]
  simp [HashTable.new]

/-- Witness for C6: the same calls as for C5; the full scan of the table
reached yields `(1,"a")` once and `(null, 2)` never. -/
theorem full_scan_yields_admitted_rows_witness :
    ∃ t, run Scenario.raw_value (Scenario.one_column false)
        [Call.insert Scenario.row_1a, Call.insert Scenario.row_n2,
          Call.scan (some (Scenario.probe_key 1)), Call.insert Scenario.row_2b] = some t ∧
      ∃ it', Scan Scenario.raw_value t none { range := [] } =
          some ({ t with current_probe_row_ := none }, it') ∧
        ∀ fuel, t.hash_tbl_.size ≤ fuel →
          (it'.collect fuel).count Scenario.row_1a = 1 ∧
          (it'.collect fuel).count Scenario.row_n2 = 0 :=
  match run_defined Scenario.raw_value
      [Call.insert Scenario.row_1a, Call.insert Scenario.row_n2,
        Call.scan (some (Scenario.probe_key 1)), Call.insert Scenario.row_2b]
      (Scenario.one_column false) (le_refl _) (TypesMatch.refl _) with
  | ⟨t, ht⟩ =>
    match full_scan_yields_admitted_rows Scenario.raw_value _ _ false _ t { range := [] } ht with
    | ⟨it', hscan, hall⟩ =>
      ⟨t, ht, it', hscan, fun fuel hfuel =>
        ⟨((hall fuel hfuel Scenario.row_1a).1).trans (by decide),
          ((hall fuel hfuel Scenario.row_n2).1).trans (by decide)⟩⟩

/-- C7: the equality functor equals the reference definition. With a row as
left reference the left key is the build expressions on that row; with the
NULL sentinel it is the probe expressions on the current probe row, which
must be set, the probe list covering the build positions with, at each
position, the type of the build expression (what the loop asserts). In both
modes the result is the AND over the build positions of the per-column rule:
`Compare = 0` for two non-null values, `stores_nulls` for two nulls, false
for a null and a non-null value. -/
theorem EqualsFn_refines_reference {ρ ν τ : Type} [DecidableEq τ] (rv : RawValue ν τ)
    (t : HashTable ρ ν τ) (r2 : ρ) :
    (∀ r1 : ρ, EqualsFn rv t (some r1) r2 =
      some (EqualsFn.reference rv t.stores_nulls_
        (t.build_exprs_.map (fun e => (e.GetValue r1, e.type)))
        (t.build_exprs_.map (fun e => e.GetValue r2)))) ∧
    (∀ p : ρ, t.current_probe_row_ = some p →
      t.build_exprs_.length ≤ t.probe_exprs_.length →
      TypesMatch t.probe_exprs_ t.build_exprs_ →
      EqualsFn rv t none r2 =
        some (EqualsFn.reference rv t.stores_nulls_
          (t.probe_exprs_.map (fun e => (e.GetValue p, e.type)))
          (t.build_exprs_.map (fun e => e.GetValue r2)))) := by
  constructor
  · intro r1
    exact EqualsFn_eq_reference rv t (some r1) r2 t.build_exprs_ r1 rfl (le_refl _)
      (TypesMatch.refl _)
  · intro p hp hlen htypes
    have hsel : t.select none = some (t.probe_exprs_, p) := by
      simp [HashTable.select, hp]
    exact EqualsFn_eq_reference rv t none r2 t.probe_exprs_ p hsel hlen htypes

/-- Witness for C7: probe key `(1, null)` against the stored row `(1, null)`
in the two-column table that stores nulls, both lists of integer type; the
functor and the reference definition both give true. -/
theorem EqualsFn_refines_reference_witness :
    ({ Scenario.built_1n_n2 with
        current_probe_row_ := some (Scenario.probe_key2 (some 1) none) } :
      HashTable _ _ _).current_probe_row_ = some (Scenario.probe_key2 (some 1) none) ∧
    TypesMatch Scenario.built_1n_n2.probe_exprs_ Scenario.built_1n_n2.build_exprs_ ∧
    EqualsFn Scenario.raw_value
      { Scenario.built_1n_n2 with
        current_probe_row_ := some (Scenario.probe_key2 (some 1) none) }
      none Scenario.row_1n = some true :=
  ⟨rfl, TypesMatch.refl _, ((EqualsFn_refines_reference Scenario.raw_value
      { Scenario.built_1n_n2 with
        current_probe_row_ := some (Scenario.probe_key2 (some 1) none) }
      Scenario.row_1n).2 (Scenario.probe_key2 (some 1) none) rfl (le_refl _)
      (TypesMatch.refl _)).trans
    (by decide)⟩

/-- C8: whatever `stores_nulls` is, when at some column one side evaluates to
null and the other to a non-null value, the equality functor returns false:
in build mode always, and in either mode when the left and build expressions
have the same type at every column up to that one (the loop asserts the types
at a column before it tests for nulls). In particular a two-column left key
`(v, null)` is not equal to a right key `(null, w)`, nor `(null, v)` to
`(w, null)`, the first column being of one type on both sides. -/
theorem EqualsFn_null_against_value {ρ ν τ : Type} [DecidableEq τ] (rv : RawValue ν τ)
    (t : HashTable ρ ν τ) (r1 : Option ρ) (r2 : ρ) :
    (∀ (exprs : List (Expr ρ ν τ)) (row : ρ) (j : Nat) (e1 e2 : Expr ρ ν τ),
      t.select r1 = some (exprs, row) →
      (∀ (k : Nat) (a b : Expr ρ ν τ), k ≤ j → exprs[k]? = some a →
        t.build_exprs_[k]? = some b → a.type = b.type) →
      exprs[j]? = some e1 → t.build_exprs_[j]? = some e2 →
      (e1.GetValue row).isSome ≠ (e2.GetValue r2).isSome →
      EqualsFn rv t r1 r2 = some false) ∧
    (∀ (r : ρ) (j : Nat) (e : Expr ρ ν τ), t.build_exprs_[j]? = some e →
      (e.GetValue r).isSome ≠ (e.GetValue r2).isSome →
      EqualsFn rv t (some r) r2 = some false) ∧
    (∀ a1 a2 b1 b2 row v w, t.select r1 = some ([a1, a2], row) →
      t.build_exprs_ = [b1, b2] → a1.type = b1.type →
      (a1.GetValue row = some v ∧ a2.GetValue row = none ∧
          b1.GetValue r2 = none ∧ b2.GetValue r2 = some w) ∨
        (a1.GetValue row = none ∧ a2.GetValue row = some v ∧
          b1.GetValue r2 = some w ∧ b2.GetValue r2 = none) →
      EqualsFn rv t r1 r2 = some false) := by
  have general : ∀ (k1 : Option ρ) (exprs : List (Expr ρ ν τ)) (row : ρ) (j : Nat)
      (e1 e2 : Expr ρ ν τ), t.select k1 = some (exprs, row) →
      (∀ (k : Nat) (a b : Expr ρ ν τ), k ≤ j → exprs[k]? = some a →
        t.build_exprs_[k]? = some b → a.type = b.type) →
      exprs[j]? = some e1 → t.build_exprs_[j]? = some e2 →
      (e1.GetValue row).isSome ≠ (e2.GetValue r2).isSome →
      EqualsFn rv t k1 r2 = some false := by
    intro k1 exprs row j e1 e2 hsel htypes h1 h2 hne
    have hc : column_equal rv t.stores_nulls_ e1.type (e1.GetValue row) (e2.GetValue r2)
        = false := by
      cases hv1 : e1.GetValue row <;> cases hv2 : e2.GetValue r2 <;>
        simp [column_equal, hv1, hv2] at hne ⊢
    obtain ⟨hj2, -⟩ := List.getElem?_eq_some.mp h2
    unfold EqualsFn
    rw [hsel]
    exact EqualsFn.loop_false_of_column rv t.stores_nulls_ exprs t.build_exprs_ row r2 j e1 e2
      htypes h1 h2 hc t.build_exprs_.length 0 (Nat.zero_le j) (by omega)
  refine ⟨general r1, ?_, ?_⟩
  · intro r j e he hne
    exact general (some r) t.build_exprs_ r j e e rfl
      (fun k a b _ ha hb => TypesMatch.refl t.build_exprs_ k a b ha hb) he he hne
  · intro a1 a2 b1 b2 row v w hsel hb hty hkeys
    apply general r1 [a1, a2] row 0 a1 b1 hsel ?_ rfl (by rw [hb]; rfl)
    · rcases hkeys with ⟨h1, -, h3, -⟩ | ⟨h1, -, h3, -⟩ <;> simp [h1, h3]
    · intro k a b hk ha hb'
      have hk0 : k = 0 := by omega
      subst hk0
      rw [hb] at hb'
      simp only [List.getElem?_cons_zero, Option.some.injEq] at ha hb'
      rw [← ha, ← hb']
      exact hty

/-- Witness for C8: in probe mode on the two-column table that stores nulls,
probe key `(1, null)` against the stored row `(null, 2)`, which differ in
nullness at column 0, a column of integer type on both sides. -/
theorem EqualsFn_null_against_value_witness :
    ((Scenario.SlotRef 0 Scenario.PrimitiveType.TYPE_INT).GetValue
        (Scenario.probe_key2 (some 1) none)).isSome ≠
      ((Scenario.SlotRef 0 Scenario.PrimitiveType.TYPE_INT).GetValue Scenario.row_n2).isSome ∧
    EqualsFn Scenario.raw_value
      { Scenario.built_1n_n2 with
        current_probe_row_ := some (Scenario.probe_key2 (some 1) none) }
      none Scenario.row_n2 = some false :=
  ⟨by decide,
    (EqualsFn_null_against_value Scenario.raw_value
      { Scenario.built_1n_n2 with
        current_probe_row_ := some (Scenario.probe_key2 (some 1) none) }
      none Scenario.row_n2).1 _ (Scenario.probe_key2 (some 1) none) 0
      (Scenario.SlotRef 0 Scenario.PrimitiveType.TYPE_INT)
      (Scenario.SlotRef 0 Scenario.PrimitiveType.TYPE_INT) rfl
      (fun k a b _ ha hb => TypesMatch.refl Scenario.built_1n_n2.build_exprs_ k a b ha hb)
      rfl rfl (by decide)⟩

/-- C9: two rows whose build keys are both null at column `i` and have
non-null values with `Compare = 0` at every other column are judged equal by
the equality functor of a table with `stores_nulls = true`, and not equal by
the same table with `stores_nulls = false`. -/
theorem EqualsFn_null_equals_null {ρ ν τ : Type} [DecidableEq τ] (rv : RawValue ν τ)
    (t : HashTable ρ ν τ)
    (r1 r2 : ρ) (i : Nat) (hi : i < t.build_exprs_.length)
    (hkeys : ∀ j e, t.build_exprs_[j]? = some e →
      if j = i then e.GetValue r1 = none ∧ e.GetValue r2 = none
      else ∃ v1 v2, e.GetValue r1 = some v1 ∧ e.GetValue r2 = some v2 ∧
        rv.Compare v1 v2 e.type = 0) :
    EqualsFn rv { t with stores_nulls_ := true } (some r1) r2 = some true ∧
    EqualsFn rv { t with stores_nulls_ := false } (some r1) r2 = some false := by
  constructor
  · unfold EqualsFn
    simp only [HashTable.select]
    rw [EqualsFn.loop_eq_true_iff]
    intro j _ hj
    have hjlt : j < t.build_exprs_.length := by omega
    refine ⟨t.build_exprs_[j], t.build_exprs_[j], List.getElem?_eq_getElem hjlt,
      List.getElem?_eq_getElem hjlt, rfl, ?_⟩
    have hk := hkeys j t.build_exprs_[j] (List.getElem?_eq_getElem hjlt)
    by_cases hji : j = i
    · rw [if_pos hji] at hk
      rw [hk.1, hk.2]; rfl
    · rw [if_neg hji] at hk
      obtain ⟨v1, v2, h1, h2, hc⟩ := hk
      rw [h1, h2]
      simp [column_equal, hc]
  · have hk := hkeys i t.build_exprs_[i] (List.getElem?_eq_getElem hi)
    rw [if_pos rfl] at hk
    unfold EqualsFn
    simp only [HashTable.select]
    exact EqualsFn.loop_false_of_column rv false t.build_exprs_ t.build_exprs_ r1 r2 i
      t.build_exprs_[i] t.build_exprs_[i]
      (fun k a b _ ha hb => TypesMatch.refl t.build_exprs_ k a b ha hb)
      (List.getElem?_eq_getElem hi)
      (List.getElem?_eq_getElem hi) (by rw [hk.1, hk.2]; rfl) t.build_exprs_.length 0
      (Nat.zero_le i) (by omega)

/-- Witness for C9: the row `(1, null)` against itself in the two-column
table, the null at column 1. -/
theorem EqualsFn_null_equals_null_witness :
    (1 < (Scenario.two_column true).build_exprs_.length) ∧
    EqualsFn Scenario.raw_value
      { Scenario.two_column true with stores_nulls_ := true }
      (some Scenario.row_1n) Scenario.row_1n = some true ∧
    EqualsFn Scenario.raw_value
      { Scenario.two_column true with stores_nulls_ := false }
      (some Scenario.row_1n) Scenario.row_1n = some false :=
  ⟨by decide,
    EqualsFn_null_equals_null Scenario.raw_value (Scenario.two_column true)
      Scenario.row_1n Scenario.row_1n 1 (by decide)
      (by
        intro j e he
        have hj : j < 2 := (List.getElem?_eq_some.mp he).1
        interval_cases j
        · simp only [Scenario.two_column, HashTable.new, List.getElem?_cons_zero,
            Option.some.injEq] at he
          subst he
          exact ⟨Scenario.Datum.int 1, Scenario.Datum.int 1, rfl, rfl, rfl⟩
        · simp only [Scenario.two_column, HashTable.new, List.getElem?_cons_succ,
            List.getElem?_cons_zero, Option.some.injEq] at he
          subst he
          exact ⟨rfl, rfl⟩)⟩

/-- C10: end to end with `stores_nulls = true` and a two-column key, for any
`Compare` that judges 1 equal to 1 and 2 equal to 2 as integers: after
inserting `(1, null)` and `(null, 2)`, `Scan` with probe key `(1, null)`
yields exactly the first row, `Scan` with probe key `(null, 2)` yields exactly
the second row, and the equality functor applied to the two stored rows, in
either order, returns false. -/
theorem two_column_null_scenario (rv : RawValue Scenario.Datum Scenario.PrimitiveType)
    (h1 : rv.Compare (Scenario.Datum.int 1) (Scenario.Datum.int 1)
      Scenario.PrimitiveType.TYPE_INT = 0)
    (h2 : rv.Compare (Scenario.Datum.int 2) (Scenario.Datum.int 2)
      Scenario.PrimitiveType.TYPE_INT = 0)
    (it : Iterator Scenario.TupleRow) :
    (∃ t' it', Scan rv Scenario.built_1n_n2 (some (Scenario.probe_key2 (some 1) none)) it
        = some (t', it') ∧ ∀ fuel, 2 ≤ fuel → it'.collect fuel = [Scenario.row_1n]) ∧
    (∃ t' it', Scan rv Scenario.built_1n_n2 (some (Scenario.probe_key2 none (some 2))) it
        = some (t', it') ∧ ∀ fuel, 2 ≤ fuel → it'.collect fuel = [Scenario.row_n2]) ∧
    EqualsFn rv Scenario.built_1n_n2 (some Scenario.row_1n) Scenario.row_n2 = some false ∧
    EqualsFn rv Scenario.built_1n_n2 (some Scenario.row_n2) Scenario.row_1n = some false := by
  have helems : Scenario.built_1n_n2.hash_tbl_.elems = [Scenario.row_n2, Scenario.row_1n] := rfl
  have heq : ∀ (p r : Scenario.TupleRow),
      EqualsFn rv { Scenario.built_1n_n2 with current_probe_row_ := some p } none r = some
        (column_equal rv true Scenario.PrimitiveType.TYPE_INT
            (p.slots.getD 0 none) (r.slots.getD 0 none) &&
          column_equal rv true Scenario.PrimitiveType.TYPE_INT
            (p.slots.getD 1 none) (r.slots.getD 1 none)) :=
    fun p r => Scenario.two_column_equals rv _ rfl none p r rfl
  have heqb : ∀ (r1 r : Scenario.TupleRow),
      EqualsFn rv Scenario.built_1n_n2 (some r1) r = some
        (column_equal rv true Scenario.PrimitiveType.TYPE_INT
            (r1.slots.getD 0 none) (r.slots.getD 0 none) &&
          column_equal rv true Scenario.PrimitiveType.TYPE_INT
            (r1.slots.getD 1 none) (r.slots.getD 1 none)) :=
    fun r1 r => Scenario.two_column_equals rv _ rfl (some r1) r1 r rfl
  have hscan : ∀ p : Scenario.TupleRow, (∀ e ∈ Scenario.built_1n_n2.hash_tbl_.elems,
      EqualsFn rv { Scenario.built_1n_n2 with current_probe_row_ := some p } none e = some true →
        p.slots.getD 0 none = e.slots.getD 0 none ∧ p.slots.getD 1 none = e.slots.getD 1 none) →
      Scan rv Scenario.built_1n_n2 (some p) it = some (_, _) :=
    fun p h => Scan_targeted_of rv Scenario.built_1n_n2 p it (le_refl _) (TypesMatch.refl _)
      (fun e he hm => Scenario.two_column_hash rv _ rfl rfl p e rfl (h e he hm).1 (h e he hm).2)
  have e11 : EqualsFn rv { Scenario.built_1n_n2 with
      current_probe_row_ := some (Scenario.probe_key2 (some 1) none) } none Scenario.row_1n
      = some true := by
    rw [heq]; simp [column_equal, Scenario.probe_key2, Scenario.row_1n, h1]
  have e12 : EqualsFn rv { Scenario.built_1n_n2 with
      current_probe_row_ := some (Scenario.probe_key2 (some 1) none) } none Scenario.row_n2
      = some false := by
    rw [heq]; simp [column_equal, Scenario.probe_key2, Scenario.row_n2]
  have e21 : EqualsFn rv { Scenario.built_1n_n2 with
      current_probe_row_ := some (Scenario.probe_key2 none (some 2)) } none Scenario.row_1n
      = some false := by
    rw [heq]; simp [column_equal, Scenario.probe_key2, Scenario.row_1n]
  have e22 : EqualsFn rv { Scenario.built_1n_n2 with
      current_probe_row_ := some (Scenario.probe_key2 none (some 2)) } none Scenario.row_n2
      = some true := by
    rw [heq]; simp [column_equal, Scenario.probe_key2, Scenario.row_n2, h2]
  refine ⟨?_, ?_, ?_, ?_⟩
  · refine ⟨_, _, hscan _ ?_, ?_⟩
    · intro e he hm
      rw [helems] at he
      simp only [List.mem_cons, List.mem_singleton, List.not_mem_nil, or_false] at he
      rcases he with he | he
      · subst he; rw [e12] at hm; simp at hm
      · subst he; exact ⟨rfl, rfl⟩
    · intro fuel hfuel
      rw [helems]
      simp only [List.filter_cons, List.filter_nil, e11, e12]
      rw [Iterator.collect_of_le fuel _ (by simpa using (by omega : 1 ≤ fuel))]
      simp
  · refine ⟨_, _, hscan _ ?_, ?_⟩
    · intro e he hm
      rw [helems] at he
      simp only [List.mem_cons, List.mem_singleton, List.not_mem_nil, or_false] at he
      rcases he with he | he
      · subst he; exact ⟨rfl, rfl⟩
      · subst he; rw [e21] at hm; simp at hm
    · intro fuel hfuel
      rw [helems]
      simp only [List.filter_cons, List.filter_nil, e21, e22]
      rw [Iterator.collect_of_le fuel _ (by simpa using (by omega : 1 ≤ fuel))]
      simp
  · rw [heqb]; simp [column_equal, Scenario.row_1n, Scenario.row_n2]
  · rw [heqb]; simp [column_equal, Scenario.row_1n, Scenario.row_n2]


/-- Witness for C10: the scenario for the modelled collaborator. -/
theorem two_column_null_scenario_witness :
    Scenario.raw_value.Compare (Scenario.Datum.int 1) (Scenario.Datum.int 1)
      Scenario.PrimitiveType.TYPE_INT = 0 ∧
    Scenario.raw_value.Compare (Scenario.Datum.int 2) (Scenario.Datum.int 2)
      Scenario.PrimitiveType.TYPE_INT = 0 ∧
    (∃ t' it', Scan Scenario.raw_value Scenario.built_1n_n2
        (some (Scenario.probe_key2 (some 1) none)) { range := [] } = some (t', it') ∧
      ∀ fuel, 2 ≤ fuel → it'.collect fuel = [Scenario.row_1n]) :=
  ⟨rfl, rfl, (two_column_null_scenario Scenario.raw_value rfl rfl { range := [] }).1⟩

/-- C11: for a two-column key, when the hash contribution of the value is 1
(as for the integer 1), the hash functor, in either mode, returns
`0x28cd94bf1d` for the key `(1, null)` and `0x28cd94bfd1` for the key
`(null, 1)`: combining from seed 0 first the contribution 1 and then the null
contribution 0 differs from combining 0 first and 1 second. -/
theorem HashFn_null_position {ρ ν τ : Type} (rv : RawValue ν τ) (t : HashTable ρ ν τ)
    (k1 k2 : Option ρ) (a1 a2 b1 b2 : Expr ρ ν τ) (row1 row2 : ρ) (v w : ν)
    (hs1 : t.select k1 = some ([a1, a2], row1)) (hs2 : t.select k2 = some ([b1, b2], row2))
    (h11 : a1.GetValue row1 = some v) (h12 : a2.GetValue row1 = none)
    (h21 : b1.GetValue row2 = none) (h22 : b2.GetValue row2 = some w)
    (hv : rv.GetHashValue v a1.type = 1) (hw : rv.GetHashValue w b2.type = 1) :
    HashFn rv t k1 = some 0x28cd94bf1d ∧ HashFn rv t k2 = some 0x28cd94bfd1 ∧
    HashFn rv t k1 ≠ HashFn rv t k2 := by
  have hA : hash_combine (hash_combine 0 1) 0 = 0x28cd94bf1d := by rfl
  have hB : hash_combine (hash_combine 0 0) 1 = 0x28cd94bfd1 := by rfl
  have e11 : HashFn.hash_value rv row1 a1 = 1 := by simp only [HashFn.hash_value, h11, hv]
  have e12 : HashFn.hash_value rv row1 a2 = 0 := by simp only [HashFn.hash_value, h12]
  have e21 : HashFn.hash_value rv row2 b1 = 0 := by simp only [HashFn.hash_value, h21]
  have e22 : HashFn.hash_value rv row2 b2 = 1 := by simp only [HashFn.hash_value, h22, hw]
  have r1 : HashFn rv t k1 = some 0x28cd94bf1d := by
    rw [HashFn_two_columns rv t k1 a1 a2 row1 1 0 hs1 e11 e12, hA]
  have r2 : HashFn rv t k2 = some 0x28cd94bfd1 := by
    rw [HashFn_two_columns rv t k2 b1 b2 row2 0 1 hs2 e21 e22, hB]
  refine ⟨r1, r2, ?_⟩
  rw [r1, r2]
  intro h
  simp only [Option.some.injEq] at h
  omega

/-- Witness for C11: the build rows `(1, null)` and `(null, 1)` of the
two-column table, with the modelled collaborator. -/
theorem HashFn_null_position_witness :
    Scenario.raw_value.GetHashValue (Scenario.Datum.int 1) Scenario.PrimitiveType.TYPE_INT = 1 ∧
    HashFn Scenario.raw_value (Scenario.two_column true) (some Scenario.row_1n) ≠
      HashFn Scenario.raw_value (Scenario.two_column true) (some Scenario.row_n1) :=
  ⟨rfl, (HashFn_null_position Scenario.raw_value (Scenario.two_column true)
    (some Scenario.row_1n) (some Scenario.row_n1) _ _ _ _ Scenario.row_1n Scenario.row_n1
    (Scenario.Datum.int 1) (Scenario.Datum.int 1) rfl rfl rfl rfl rfl rfl rfl rfl).2.2⟩

/-- C12: once `GetNext` has returned the no-more-rows sentinel, the iterator
is unchanged by it and by any number of further calls, each of which returns
the sentinel again; and an iterator bound to any range, the empty one
included, returns the sentinel once as many rows as the range holds have been
taken. -/
theorem GetNext_exhausted_idempotent {ρ : Type} :
    (∀ it : Iterator ρ, it.GetNext.1 = none →
      it.GetNext.2 = it ∧
      ∀ n, Iterator.advance n it = it ∧ (Iterator.advance n it).GetNext.1 = none) ∧
    (∀ (it0 : Iterator ρ) (range : List ρ) (n : Nat), range.length ≤ n →
      (Iterator.advance n (it0.Reset range)).GetNext.1 = none) := by
  constructor
  · intro it h
    refine ⟨Iterator.advance_exhausted it h 1, fun n => ?_⟩
    rw [Iterator.advance_exhausted it h n]
    exact ⟨rfl, h⟩
  · intro it0 range n hn
    rw [Iterator.Reset, Iterator.advance_range, List.drop_eq_nil_of_le hn]
    rfl

/-- Witness for C12: an iterator bound to the empty range. -/
theorem GetNext_exhausted_idempotent_witness :
    (({ range := [] } : Iterator Nat).GetNext.1 = none) ∧
    (Iterator.advance 3 ({ range := [] } : Iterator Nat)).GetNext.1 = none :=
  ⟨rfl, ((GetNext_exhausted_idempotent.1 ({ range := [] } : Iterator Nat) rfl).2 3).2⟩

/-- C13: the hash functor equals the reference definition. Given a row it
takes the build expressions on that row, given the NULL sentinel the probe
expressions on the current probe row (undefined when there is none), and it
returns the left fold from seed 0, in column order, of the combining step
`seed XOR (h + 0x9e3779b9 + (seed << 6) + (seed >> 2))` in `size_t`
arithmetic over the contributions `h`, 0 for a null column and the type-aware
hash of the value otherwise. -/
theorem HashFn_refines_reference {ρ ν τ : Type} (rv : RawValue ν τ) (t : HashTable ρ ν τ) :
    (∀ r : ρ, HashFn rv t (some r) =
      some (HashFn.reference rv (t.build_exprs_.map (fun e => (e.GetValue r, e.type))))) ∧
    HashFn rv t none = t.current_probe_row_.map (fun p =>
      HashFn.reference rv (t.probe_exprs_.map (fun e => (e.GetValue p, e.type)))) := by
  constructor
  · intro r
    rw [HashFn_of_select rv t (some r) t.build_exprs_ r rfl,
      HashFn.foldl_eq_reference rv r t.build_exprs_ 0 (by norm_num)]
    rfl
  · cases hp : t.current_probe_row_ with
    | none => simp only [HashFn, HashTable.select, hp, Option.map_none']
    | some p =>
      have hsel : t.select none = some (t.probe_exprs_, p) := by
        simp only [HashTable.select, hp]
      rw [HashFn_of_select rv t none t.probe_exprs_ p hsel,
        HashFn.foldl_eq_reference rv p t.probe_exprs_ 0 (by norm_num)]
      rfl

/-- C14: in every table state reached from the empty table by `Insert` and
`Scan` calls, with `stores_nulls = false` every stored row has a non-null
value at every build-key column; and, for either flag, the assertion in the
loop of the hash functor (`stores_nulls`, or sentinel reference, or value
non-null) holds at every column when the functor is applied to a resident
row, to a row that passes the admission check, or to the sentinel. -/
theorem HashFn_assertion_holds {ρ ν τ : Type} [DecidableEq τ] (rv : RawValue ν τ)
    (build_exprs probe_exprs : List (Expr ρ ν τ)) (stores_nulls : Bool)
    (calls : List (Call ρ)) (t : HashTable ρ ν τ)
    (hrun : run rv (HashTable.new build_exprs probe_exprs stores_nulls) calls = some t) :
    (stores_nulls = false →
      ∀ x ∈ t.hash_tbl_.elems, ∀ e ∈ t.build_exprs_, e.GetValue x ≠ none) ∧
    (∀ x ∈ t.hash_tbl_.elems, HashFn.DCHECK t (some x) = true) ∧
    (∀ r, Insert.admits t r = true → HashFn.DCHECK t (some r) = true) ∧
    HashFn.DCHECK t none = true := by
  obtain ⟨hb, -, hs, he⟩ := run_elems rv calls _ t hrun
  have hadm : ∀ x ∈ t.hash_tbl_.elems, Insert.admits t x = true := by
    intro x hx
    rw [he] at hx
    simp only [HashTable.new, List.append_nil, List.mem_reverse] at hx
    have := admitted_rows_mem build_exprs stores_nulls calls x hx
    unfold Insert.admits Insert.has_null
    rw [hb, hs]
    exact this
  refine ⟨?_, ?_, ?_, ?_⟩
  · intro hsn x hx e he' hnone
    have h1 := hadm x hx
    unfold Insert.admits Insert.has_null at h1
    rw [hs] at h1
    simp only [HashTable.new] at h1
    rw [hsn] at h1
    have := admitted_no_null t.build_exprs_ x h1 e he'
    rw [hnone] at this
    cases this
  · intro x hx
    exact HashFn.DCHECK_of_admits t x (hadm x hx)
  · intro r hr
    exact HashFn.DCHECK_of_admits t r hr
  · unfold HashFn.DCHECK
    cases t.select none with
    | none => rfl
    | some sel => simp

/-- Witness for C14: `(1,"a")`, the null-keyed `(null, 2)`, a probe with key 1
and `(2,"b")` on the one-column table that does not store nulls. -/
theorem HashFn_assertion_holds_witness :
    ∃ t, run Scenario.raw_value (Scenario.one_column false)
        [Call.insert Scenario.row_1a, Call.insert Scenario.row_n2,
          Call.scan (some (Scenario.probe_key 1)), Call.insert Scenario.row_2b] = some t ∧
      ∀ x ∈ t.hash_tbl_.elems, HashFn.DCHECK t (some x) = true :=
  match run_defined Scenario.raw_value
      [Call.insert Scenario.row_1a, Call.insert Scenario.row_n2,
        Call.scan (some (Scenario.probe_key 1)), Call.insert Scenario.row_2b]
      (Scenario.one_column false) (le_refl _) (TypesMatch.refl _) with
  | ⟨t, ht⟩ => ⟨t, ht, (HashFn_assertion_holds Scenario.raw_value _ _ false _ t ht).2.1⟩

/-- C15: `Insert` leaves the `stores_nulls` flag, the build and probe
expression lists and the current probe row as they were. The full scan always
returns, and the targeted `Scan(p)` returns whenever the probe list covers the
build positions with the same types; the table a `Scan` returns is the table
it was called on with the current probe row set to its argument (`p`, or none
for the full scan): the flag, both expression lists and the stored multiset
are as they were. -/
theorem Insert_Scan_frame {ρ ν τ : Type} [DecidableEq τ] (rv : RawValue ν τ)
    (t : HashTable ρ ν τ) :
    (∀ r : ρ, (Insert t r).stores_nulls_ = t.stores_nulls_ ∧
      (Insert t r).build_exprs_ = t.build_exprs_ ∧
      (Insert t r).probe_exprs_ = t.probe_exprs_ ∧
      (Insert t r).current_probe_row_ = t.current_probe_row_) ∧
    (∀ it : Iterator ρ, ∃ it',
      Scan rv t none it = some ({ t with current_probe_row_ := none }, it')) ∧
    (t.build_exprs_.length ≤ t.probe_exprs_.length →
      TypesMatch t.probe_exprs_ t.build_exprs_ →
      ∀ (p : ρ) (it : Iterator ρ), ∃ it',
        Scan rv t (some p) it = some ({ t with current_probe_row_ := some p }, it')) ∧
    (∀ (probe_row : Option ρ) (it it' : Iterator ρ) (t' : HashTable ρ ν τ),
      Scan rv t probe_row it = some (t', it') →
      t' = { t with current_probe_row_ := probe_row } ∧
      t'.stores_nulls_ = t.stores_nulls_ ∧ t'.build_exprs_ = t.build_exprs_ ∧
      t'.probe_exprs_ = t.probe_exprs_ ∧ t'.hash_tbl_ = t.hash_tbl_ ∧
      t'.current_probe_row_ = probe_row) := by
  refine ⟨?_, ?_, ?_, ?_⟩
  · intro r
    obtain ⟨h1, h2, h3, h4, -⟩ := Insert_fields t r
    exact ⟨h4, h1, h2, h3⟩
  · intro it
    exact ⟨_, rfl⟩
  · intro hlen htypes p it
    exact Scan_defined rv t (some p) it hlen htypes
  · intro probe_row it it' t' h
    obtain ⟨ht, -⟩ := Scan_table rv t t' probe_row it it' h
    subst ht
    exact ⟨rfl, rfl, rfl, rfl, rfl, rfl⟩

/-- Witness for C15: the one-column scenario table, whose current probe row is
none, scanned with probe key 1: the table returned has that probe row as
current probe row and the stored entries it had. -/
theorem Insert_Scan_frame_witness :
    Scenario.built_1a_2b_1a.current_probe_row_ = none ∧
    TypesMatch Scenario.built_1a_2b_1a.probe_exprs_ Scenario.built_1a_2b_1a.build_exprs_ ∧
    ∃ t' it', Scan Scenario.raw_value Scenario.built_1a_2b_1a (some (Scenario.probe_key 1))
        { range := [] } = some (t', it') ∧
      t'.current_probe_row_ = some (Scenario.probe_key 1) ∧
      t'.hash_tbl_ = Scenario.built_1a_2b_1a.hash_tbl_ :=
  ⟨rfl, TypesMatch.refl _,
    match (Insert_Scan_frame Scenario.raw_value Scenario.built_1a_2b_1a).2.2.1 (le_refl _)
      (TypesMatch.refl _) (Scenario.probe_key 1) { range := [] } with
    | ⟨it', h⟩ => ⟨_, it', h, rfl, rfl⟩⟩

/-- C16: hash and equality are consistent. When build and probe expression
lists have equal length and pairwise equal types and `Compare = 0` implies
equal `GetHashValue`, then for either flag, whenever the equality functor
returns true for a left reference (the sentinel or a row) and a row `r2`, the
hash functor is defined on both and returns the same value for the left
reference and for `r2`. -/
theorem HashFn_agrees_with_EqualsFn {ρ ν τ : Type} [DecidableEq τ] (rv : RawValue ν τ)
    (t : HashTable ρ ν τ) (r1 : Option ρ) (r2 : ρ) (hrc : HashRespectsCompare rv)
    (hty : TypesAligned t) (h : EqualsFn rv t r1 r2 = some true) :
    HashFn rv t r1 = HashFn rv t (some r2) ∧ ∃ hv, HashFn rv t r1 = some hv := by
  have heq := HashFn_eq_of_EqualsFn rv t hrc hty r1 r2 h
  refine ⟨heq, ?_⟩
  rw [heq, HashFn_of_select rv t (some r2) t.build_exprs_ r2 rfl]
  exact ⟨_, rfl⟩

/-- Witness for C16: probe key `(1, null)` against the stored row `(1, null)`
in the two-column table that stores nulls. -/
theorem HashFn_agrees_with_EqualsFn_witness :
    HashRespectsCompare Scenario.raw_value ∧
    TypesAligned ({ Scenario.built_1n_n2 with
      current_probe_row_ := some (Scenario.probe_key2 (some 1) none) } : HashTable _ _ _) ∧
    EqualsFn Scenario.raw_value { Scenario.built_1n_n2 with
      current_probe_row_ := some (Scenario.probe_key2 (some 1) none) } none Scenario.row_1n
      = some true ∧
    HashFn Scenario.raw_value { Scenario.built_1n_n2 with
      current_probe_row_ := some (Scenario.probe_key2 (some 1) none) } none =
    HashFn Scenario.raw_value { Scenario.built_1n_n2 with
      current_probe_row_ := some (Scenario.probe_key2 (some 1) none) } (some Scenario.row_1n) :=
  have h : EqualsFn Scenario.raw_value { Scenario.built_1n_n2 with
      current_probe_row_ := some (Scenario.probe_key2 (some 1) none) } none Scenario.row_1n
      = some true := by decide
  ⟨Scenario.raw_value_respects, rfl, h,
    (HashFn_agrees_with_EqualsFn Scenario.raw_value
      { Scenario.built_1n_n2 with
        current_probe_row_ := some (Scenario.probe_key2 (some 1) none) }
      none Scenario.row_1n Scenario.raw_value_respects rfl h).1⟩

/-- C17: assume `Compare = 0` is reflexive, symmetric and transitive on the
non-null values of each type. In every table state reached from the empty
table the equality functor in build mode is reflexive on the stored rows, and
symmetric and transitive on all rows. With `stores_nulls = false` it is not
reflexive on a row with a null build-key column: it returns false for such a
row against itself (such a row is never stored). -/
theorem EqualsFn_build_equivalence {ρ ν τ : Type} [DecidableEq τ] (rv : RawValue ν τ)
    (build_exprs probe_exprs : List (Expr ρ ν τ)) (stores_nulls : Bool)
    (calls : List (Call ρ)) (t : HashTable ρ ν τ)
    (hrefl : ∀ a ty, rv.Compare a a ty = 0)
    (hsymm : ∀ a b ty, rv.Compare a b ty = 0 → rv.Compare b a ty = 0)
    (htrans : ∀ a b c ty, rv.Compare a b ty = 0 → rv.Compare b c ty = 0 → rv.Compare a c ty = 0)
    (hrun : run rv (HashTable.new build_exprs probe_exprs stores_nulls) calls = some t) :
    (∀ x ∈ t.hash_tbl_.elems, EqualsFn rv t (some x) x = some true) ∧
    (∀ x y, EqualsFn rv t (some x) y = some true → EqualsFn rv t (some y) x = some true) ∧
    (∀ x y z, EqualsFn rv t (some x) y = some true → EqualsFn rv t (some y) z = some true →
      EqualsFn rv t (some x) z = some true) ∧
    (stores_nulls = false → ∀ r, (∃ e ∈ t.build_exprs_, e.GetValue r = none) →
      EqualsFn rv t (some r) r = some false ∧ r ∉ t.hash_tbl_.elems) := by
  obtain ⟨hb, -, hs, he⟩ := run_elems rv calls _ t hrun
  simp only [HashTable.new, List.append_nil] at hb hs he
  have hadm : ∀ x ∈ t.hash_tbl_.elems,
      (stores_nulls || !build_exprs.any (fun e => (e.GetValue x).isNone)) = true := by
    intro x hx
    rw [he] at hx
    exact admitted_rows_mem build_exprs stores_nulls calls x (List.mem_reverse.mp hx)
  refine ⟨?_, ?_, ?_, ?_⟩
  · intro x hx
    rw [EqualsFn_build_true_iff]
    intro e he'
    rw [hb] at he'
    have h := hadm x hx
    cases hv : e.GetValue x with
    | some v => simp [column_equal, hrefl]
    | none =>
      rw [hs]
      cases hsn : stores_nulls with
      | true => rfl
      | false =>
        rw [hsn] at h
        have := admitted_no_null build_exprs x h e he'
        rw [hv] at this
        cases this
  · intro x y h
    rw [EqualsFn_build_true_iff] at h ⊢
    exact fun e he' => column_equal_symm rv _ _ hsymm _ _ (h e he')
  · intro x y z h1 h2
    rw [EqualsFn_build_true_iff] at h1 h2 ⊢
    exact fun e he' => column_equal_trans rv _ _ htrans _ _ _ (h1 e he') (h2 e he')
  · intro hsn r hnull
    obtain ⟨e, he', hv⟩ := hnull
    constructor
    · obtain ⟨j, hj, hje⟩ := List.getElem_of_mem he'
      unfold EqualsFn
      simp only [HashTable.select]
      have hje' : t.build_exprs_[j]? = some e := by rw [List.getElem?_eq_getElem hj, hje]
      exact EqualsFn.loop_false_of_column rv t.stores_nulls_ t.build_exprs_ t.build_exprs_ r r j
        e e (fun k a b _ ha hb => TypesMatch.refl t.build_exprs_ k a b ha hb) hje' hje' (by rw [hs, hsn, hv]; rfl) t.build_exprs_.length 0 (Nat.zero_le j)
        (by omega)
    · intro hx
      have h := hadm r hx
      rw [hsn] at h
      rw [hb] at he'
      have := admitted_no_null build_exprs r h e he'
      rw [hv] at this
      cases this

/-- Witness for C17: the modelled `Compare` is an equivalence on each type;
the table reached after `(1,"a")`, `(null, 2)`, a probe and `(2,"b")`. -/
theorem EqualsFn_build_equivalence_witness :
    ∃ t, run Scenario.raw_value (Scenario.one_column false)
        [Call.insert Scenario.row_1a, Call.insert Scenario.row_n2,
          Call.scan (some (Scenario.probe_key 1)), Call.insert Scenario.row_2b] = some t ∧
      (∀ x ∈ t.hash_tbl_.elems, EqualsFn Scenario.raw_value t (some x) x = some true) ∧
      EqualsFn Scenario.raw_value t (some Scenario.row_n2) Scenario.row_n2 = some false :=
  match run_defined Scenario.raw_value
      [Call.insert Scenario.row_1a, Call.insert Scenario.row_n2,
        Call.scan (some (Scenario.probe_key 1)), Call.insert Scenario.row_2b]
      (Scenario.one_column false) (le_refl _) (TypesMatch.refl _) with
  | ⟨t, ht⟩ =>
    have hb : t.build_exprs_ = [Scenario.SlotRef 0 Scenario.PrimitiveType.TYPE_INT] :=
      (run_elems Scenario.raw_value _ _ t ht).1
    have hall := EqualsFn_build_equivalence Scenario.raw_value _ _ false _ t
      Scenario.Compare_refl Scenario.Compare_symm Scenario.Compare_trans ht
    ⟨t, ht, hall.1, (hall.2.2.2 rfl Scenario.row_n2
      ⟨Scenario.SlotRef 0 Scenario.PrimitiveType.TYPE_INT, by rw [hb]; exact List.mem_singleton.mpr rfl,
        rfl⟩).1⟩

/-- C18: with `stores_nulls = false`, when the probe key of the probe row is
null at some key column (a position of both expression lists, which have the
same type at each column up to that one), the targeted `Scan` returns and its
iterator yields no row, whatever the table stores. -/
theorem Scan_null_probe_key_empty {ρ ν τ : Type} [DecidableEq τ] (rv : RawValue ν τ)
    (t : HashTable ρ ν τ) (p : ρ) (it : Iterator ρ) (j : Nat) (e : Expr ρ ν τ)
    (hs : t.stores_nulls_ = false) (hj : j < t.build_exprs_.length)
    (htypes : ∀ (k : Nat) (a b : Expr ρ ν τ), k ≤ j → t.probe_exprs_[k]? = some a →
      t.build_exprs_[k]? = some b → a.type = b.type)
    (he : t.probe_exprs_[j]? = some e) (hnull : e.GetValue p = none) :
    ∃ it', Scan rv t (some p) it = some ({ t with current_probe_row_ := some p }, it') ∧
      ∀ fuel, it'.collect fuel = [] := by
  have hfalse : ∀ x : ρ,
      EqualsFn rv { t with current_probe_row_ := some p } none x = some false := by
    intro x
    unfold EqualsFn
    simp only [HashTable.select]
    exact EqualsFn.loop_false_of_column rv t.stores_nulls_ t.probe_exprs_ t.build_exprs_ p x j
      e t.build_exprs_[j] htypes he (List.getElem?_eq_getElem hj)
      (by rw [hs, hnull]; exact column_equal_none_left rv _ _) t.build_exprs_.length 0
      (Nat.zero_le j) (by omega)
  have hgo := HashSet.equal_range.go_eq_filter (HashFn rv { t with current_probe_row_ := some p })
    (EqualsFn rv { t with current_probe_row_ := some p }) t.hash_tbl_.bucket_count none
    (t.probe_exprs_.foldl (fun seed expr => hash_combine seed (HashFn.hash_value rv p expr)) 0)
    t.hash_tbl_.elems
    (by
      intro x _
      refine ⟨_, rfl, ?_⟩
      intro heq
      rw [hfalse x] at heq
      cases heq)
    (by
      intro x _
      exact ⟨false, hfalse x⟩)
  have hnil : t.hash_tbl_.elems.filter (fun r =>
      decide (EqualsFn rv { t with current_probe_row_ := some p } none r = some true)) = [] := by
    rw [List.filter_eq_nil_iff]
    intro x _
    rw [hfalse x]
    simp
  rw [hnil] at hgo
  refine ⟨{ range := [] }, ?_, ?_⟩
  · simp only [Scan, HashSet.equal_range, HashFn, HashTable.select, Iterator.Reset]
    rw [hgo]
  · intro fuel
    rw [Iterator.collect_eq_take]
    simp

/-- Witness for C18: the one-column scenario table, its key column of integer
type on both sides, probed with a row whose key column is null. -/
theorem Scan_null_probe_key_empty_witness :
    Scenario.built_1a_2b_1a.stores_nulls_ = false ∧
    (Scenario.SlotRef 0 Scenario.PrimitiveType.TYPE_INT).GetValue Scenario.row_n2 = none ∧
    ∃ it', Scan Scenario.raw_value Scenario.built_1a_2b_1a (some Scenario.row_n2)
        { range := [] } =
        some ({ Scenario.built_1a_2b_1a with current_probe_row_ := some Scenario.row_n2 }, it') ∧
      ∀ fuel, it'.collect fuel = [] :=
  ⟨rfl, rfl, Scan_null_probe_key_empty Scenario.raw_value Scenario.built_1a_2b_1a
    Scenario.row_n2 { range := [] } 0 (Scenario.SlotRef 0 Scenario.PrimitiveType.TYPE_INT)
    rfl (by decide)
    (fun k a b _ ha hb => TypesMatch.refl Scenario.built_1a_2b_1a.build_exprs_ k a b ha hb)
    rfl rfl⟩

/-- C19: when the build and probe expression lists have the same length,
every access of the equality functor to an expression list is in bounds, in
both modes: each column of the loop has an expression in the left list and in
the build list, the functor can only be undefined through the type assertion
at such a column, and it returns a result when the types agree. When the
probe list is shorter than the build list (the types agreeing on the
positions they share), the loop's range contains a column, the one at the
probe list's length, that is out of bounds for the probe list; in probe mode
the functor reaches it, and is undefined, exactly when every earlier column
compares equal (an earlier mismatch returns false first). -/
theorem EqualsFn_accesses_in_bounds {ρ ν τ : Type} [DecidableEq τ] (rv : RawValue ν τ)
    (t : HashTable ρ ν τ) (r2 : ρ) :
    (t.build_exprs_.length = t.probe_exprs_.length →
      ∀ (r1 : Option ρ) (r1_exprs : List (Expr ρ ν τ)) (r1_row : ρ),
        t.select r1 = some (r1_exprs, r1_row) →
        (∀ i, i < t.build_exprs_.length →
          (r1_exprs[i]?).isSome = true ∧ (t.build_exprs_[i]?).isSome = true) ∧
        (EqualsFn rv t r1 r2 = none → ∃ (i : Nat) (e1 e2 : Expr ρ ν τ),
          r1_exprs[i]? = some e1 ∧ t.build_exprs_[i]? = some e2 ∧ e1.type ≠ e2.type) ∧
        (TypesMatch r1_exprs t.build_exprs_ → ∃ b, EqualsFn rv t r1 r2 = some b)) ∧
    (t.probe_exprs_.length < t.build_exprs_.length →
      TypesMatch t.probe_exprs_ t.build_exprs_ →
      ∀ p : ρ, t.current_probe_row_ = some p →
        (t.probe_exprs_[t.probe_exprs_.length]? = none ∧
          (t.build_exprs_[t.probe_exprs_.length]?).isSome = true) ∧
        (EqualsFn rv t none r2 = none ↔
          ∀ j, j < t.probe_exprs_.length → ∃ e1 e2, t.probe_exprs_[j]? = some e1 ∧
            t.build_exprs_[j]? = some e2 ∧
            column_equal rv t.stores_nulls_ e1.type (e1.GetValue p) (e2.GetValue r2) = true)) := by
  constructor
  · intro hlen r1 r1_exprs r1_row hsel
    have hl : t.build_exprs_.length ≤ r1_exprs.length := by
      cases r1 with
      | none =>
        cases hp : t.current_probe_row_ with
        | none => simp [HashTable.select, hp] at hsel
        | some p =>
          simp only [HashTable.select, hp, Option.some.injEq, Prod.mk.injEq] at hsel
          rw [← hsel.1, hlen]
      | some r =>
        simp only [HashTable.select, Option.some.injEq, Prod.mk.injEq] at hsel
        rw [← hsel.1]
    have hdef : TypesMatch r1_exprs t.build_exprs_ → ∃ b, EqualsFn rv t r1 r2 = some b :=
      fun htypes => ⟨_, EqualsFn_eq_reference rv t r1 r2 r1_exprs r1_row hsel hl htypes⟩
    refine ⟨?_, ?_, hdef⟩
    · intro i hi
      rw [List.getElem?_eq_getElem (by omega : i < r1_exprs.length), List.getElem?_eq_getElem hi]
      exact ⟨rfl, rfl⟩
    · intro hnone
      by_contra hno
      have htypes : TypesMatch r1_exprs t.build_exprs_ := by
        intro i e1 e2 h1 h2
        by_contra hne
        exact hno ⟨i, e1, e2, h1, h2, hne⟩
      obtain ⟨b, hb⟩ := hdef htypes
      rw [hnone] at hb
      cases hb
  · intro hshort htypes p hp
    refine ⟨⟨List.getElem?_eq_none (le_refl _), ?_⟩, ?_⟩
    · rw [List.getElem?_eq_getElem hshort]; rfl
    · unfold EqualsFn
      simp only [HashTable.select, hp]
      rw [EqualsFn.loop_eq_none_iff rv t.stores_nulls_ t.probe_exprs_ t.build_exprs_ p r2 hshort
        htypes t.build_exprs_.length 0 (by omega) (Nat.zero_le _)]
      constructor
      · intro h j hj; exact h j (Nat.zero_le j) hj
      · intro h j _ hj; exact h j hj

/-- Witness for C19: the aligned two-column table in probe mode, and the
table with a one-column probe list, where probe key 1 against the row
`(1, null)` runs out of bounds at column 1. -/
theorem EqualsFn_accesses_in_bounds_witness :
    (∃ b, EqualsFn Scenario.raw_value { Scenario.two_column true with
        current_probe_row_ := some (Scenario.probe_key2 (some 1) none) } none Scenario.row_1n
        = some b) ∧
    TypesMatch (Scenario.short_probe true).probe_exprs_ (Scenario.short_probe true).build_exprs_ ∧
    EqualsFn Scenario.raw_value { Scenario.short_probe true with
      current_probe_row_ := some (Scenario.probe_key 1) } none Scenario.row_1n = none :=
  ⟨((EqualsFn_accesses_in_bounds Scenario.raw_value { Scenario.two_column true with
        current_probe_row_ := some (Scenario.probe_key2 (some 1) none) } Scenario.row_1n).1 rfl
      none _ _ rfl).2.2 (TypesMatch.refl _),
    Scenario.short_probe_types,
    ((EqualsFn_accesses_in_bounds Scenario.raw_value { Scenario.short_probe true with
        current_probe_row_ := some (Scenario.probe_key 1) } Scenario.row_1n).2 (by decide)
      Scenario.short_probe_types (Scenario.probe_key 1) rfl).2.mpr (by
        intro j hj
        have hj0 : j = 0 := by
          have : j < 1 := hj
          omega
        subst hj0
        exact ⟨_, _, rfl, rfl, by decide⟩)⟩

end impala
